import Mathlib

/-!
# Teensy_Flasher: Intel HEX loader, memory image queries and block programmer

A shallow embedding of `teensy_flasher.c`.

* C `int` values are `Int`; `unsigned int` values are `Nat` below `2^32`.
  Conversions and wrap-around are explicit (`toU32`, `wrapInt`).
* `firmware_image` and `firmware_mask` are functions from an index to a byte.
  A store outside `[0, MAX_MEMORY_SIZE)` is reported as `Fault.oob`.
* A line is a C string: the characters before the terminating NUL.
* `sscanf` with a `%02x` / `%04x` directive follows ISO C 7.21.6.2: white space
  is skipped, an optional sign and an optional `0x` prefix count towards the
  field width, then hexadecimal digits are read up to the width. An input item
  without a digit is a matching failure (the call returns 0); the end of the
  string before any input item is an input failure (the call returns `EOF`).
* In the parser, left shifts and additions of `int` values that leave the
  `int` range wrap (two's complement), as on the compilers the program is
  built with. An overflow of `addr + len` in `ihex_get_data` or of
  `addr + block_size` in the programming loop is reported instead.
* A read of a variable that `sscanf` left unassigned, and a read through the
  line pointer after it passed the end of the string, are reported as faults.
* A run of `main` is the list of its calls of `teensy_open`, `teensy_write`
  and `teensy_close` in order, with the exit status of the process. The
  answers of the transport and the content of the HEX file at each load are
  parameters of the run.
-/

namespace TeensyFlasher

/-! ## Machine arithmetic -/

/-- The constant `MAX_MEMORY_SIZE` of the source (`0x1000000`). -/
def MAX_MEMORY_SIZE : Nat := 0x1000000

/-- Conversion of an integer value to `unsigned int` (32 bits). -/
def toU32 (x : Int) : Nat := (x % 4294967296).toNat

/-- Two's complement wrap of an integer value to `int` (32 bits). -/
def wrapInt (x : Int) : Int := (x + 2147483648) % 4294967296 - 2147483648

/-! ## `sscanf` with a hexadecimal directive -/

/-- The C `isspace` test on a character (space, and the controls 9 to 13). -/
def isSpaceC (c : Char) : Bool :=
  c.toNat = 32 || (9 ≤ c.toNat && c.toNat ≤ 13)

/-- Value of a hexadecimal digit character, if it is one. -/
def hexDigitVal (c : Char) : Option Nat :=
  if 48 ≤ c.toNat ∧ c.toNat ≤ 57 then some (c.toNat - 48)
  else if 97 ≤ c.toNat ∧ c.toNat ≤ 102 then some (c.toNat - 87)
  else if 65 ≤ c.toNat ∧ c.toNat ≤ 70 then some (c.toNat - 55)
  else none

/-- Skip leading white space, as every `sscanf` conversion but `%c` does. -/
def skipSpace : List Char → List Char
  | [] => []
  | c :: cs => if isSpaceC c then skipSpace cs else c :: cs

/-- Read at most `w` hexadecimal digits from the front of the input and
accumulate their value; returns the value and the number of digits read. -/
def hexDigits : Nat → List Char → Nat → Nat → Nat × Nat
  | 0, _, acc, n => (acc, n)
  | _ + 1, [], acc, n => (acc, n)
  | w + 1, c :: cs, acc, n =>
    match hexDigitVal c with
    | some d => hexDigits w cs (acc * 16 + d) (n + 1)
    | none => (acc, n)

/-- Result of one `sscanf(ptr, "%0Nx", &v)` call. -/
inductive Scan where
  /-- The call returned 1 and stored `v`. -/
  | ok (v : Int)
  /-- Matching failure: the call returned 0, the variable is untouched. -/
  | nomatch
  /-- Input failure: the call returned `EOF` (-1), the variable is untouched. -/
  | eof
  deriving DecidableEq, Repr

/-- The optional sign of the input item: consumes one character of width. -/
def scanSign (w : Nat) (s : List Char) : Bool × Nat × List Char :=
  match s with
  | c :: cs =>
    if c.toNat = 45 then (true, w - 1, cs)
    else if c.toNat = 43 then (false, w - 1, cs)
    else (false, w, s)
  | [] => (false, w, s)

/-- The optional `0x` / `0X` prefix of the input item: consumes two characters
of width when the width allows it. -/
def scanBase (w : Nat) (s : List Char) : Nat × List Char :=
  match s with
  | c :: x :: cs =>
    if c.toNat = 48 ∧ (x.toNat = 120 ∨ x.toNat = 88) ∧ 2 ≤ w then (w - 2, cs)
    else (w, s)
  | _ => (w, s)

/-- Model of `sscanf(s, "%0wx", &v)` for a field width `w`. -/
def sscanf_x (w : Nat) (s : List Char) : Scan :=
  match skipSpace s with
  | [] => Scan.eof
  | c :: cs =>
    let sg := scanSign w (c :: cs)
    let pf := scanBase sg.2.1 sg.2.2
    let r := hexDigits pf.1 pf.2 0 0
    if r.2 = 0 then Scan.nomatch
    else Scan.ok (if sg.1 then -(r.1 : Int) else (r.1 : Int))

/-! ## Parser state and outcomes -/

/-- The options `code_size` and `block_size` set from the MCU table. -/
structure Config where
  code_size : Int
  block_size : Int

/-- The file-scope variables of the Intel HEX reader. -/
structure ParserState where
  firmware_image : Nat → Nat
  firmware_mask : Nat → Nat
  end_record_seen : Int
  byte_count : Int
  extended_addr : Nat

/-- Ways in which an execution leaves the defined behaviour of C. -/
inductive Fault where
  /-- A variable is read that `sscanf` left unassigned (it returned `EOF`). -/
  | uninit
  /-- A store to `firmware_image` / `firmware_mask` at an index that is not
  below `MAX_MEMORY_SIZE`. -/
  | oob (idx : Nat)
  /-- The line pointer was advanced past the terminating NUL and read. -/
  | stray
  /-- The iteration bound of the model was exhausted (never for 257). -/
  | fuel
  deriving DecidableEq, Repr

/-- Outcome of a call: a return value with the new state, or a fault. -/
inductive Outcome where
  | ret (r : Int) (s : ParserState)
  | undef (f : Fault)

/-- Return value of a call, when it returns. -/
def Outcome.retval : Outcome → Option Int
  | Outcome.ret r _ => some r
  | Outcome.undef _ => none

/-- State after a call, when it returns. -/
def Outcome.state : Outcome → Option ParserState
  | Outcome.ret _ s => some s
  | Outcome.undef _ => none

/-- The fault of a call, when it does not return. -/
def Outcome.fault : Outcome → Option Fault
  | Outcome.ret _ _ => none
  | Outcome.undef f => some f

/-- Store of one data byte: `firmware_image[idx] = v; firmware_mask[idx] = 1`. -/
def storeByte (st : ParserState) (idx : Nat) (v : Nat) : ParserState :=
  { st with
    firmware_image := fun a => if a = idx then v else st.firmware_image a
    firmware_mask := fun a => if a = idx then 1 else st.firmware_mask a }

/-- The checksum test `((sum & 255) + (cksum & 255)) & 255` being zero. -/
def cksumOk (sum cksum : Int) : Bool := ((sum % 256) + (cksum % 256)) % 256 = 0

/-! ## `parse_hex_line` -/

/-- The data loop `while (num != len)` of `parse_hex_line` followed by the
checksum test. Each iteration either returns or increases `num`, and
`num >= 256` returns, so 257 units of fuel cover every execution. -/
def dataLoop (addr len : Int) :
    Nat → ParserState → List Char → Int → Int → Outcome
  | 0, _, _, _, _ => Outcome.undef Fault.fuel
  | fuel + 1, st, ptr, sum, num =>
    if num ≠ len then
      match sscanf_x 2 ptr with
      | Scan.ok i0 =>
        let i := i0 % 256
        let idx := toU32 (addr + st.extended_addr + num)
        if MAX_MEMORY_SIZE ≤ idx then Outcome.undef (Fault.oob idx)
        else
          let st1 := storeByte st idx i.toNat
          if num + 1 ≥ 256 then Outcome.ret 0 st1
          else if ptr.length < 2 then Outcome.undef Fault.stray
          else dataLoop addr len fuel st1 (ptr.drop 2) (sum + i) (num + 1)
      | _ => Outcome.ret 0 st
    else
      match sscanf_x 2 ptr with
      | Scan.nomatch => Outcome.ret 0 st
      | Scan.eof => Outcome.undef Fault.uninit
      | Scan.ok cksum =>
        if cksumOk sum cksum then Outcome.ret 1 st else Outcome.ret 0 st

/-- The value of `extended_addr` after a type-04 record with value `i`. -/
def linearAddr (cfg : Config) (i : Int) : Nat :=
  let e := toU32 (i * 65536)
  if cfg.code_size > 1048576 ∧ cfg.block_size ≥ 1024 ∧
      e ≥ 0x60000000 ∧ e < toU32 (0x60000000 + cfg.code_size) then
    e - 0x60000000
  else e

/-- The branches `code == 2 && len == 2` and `code == 4 && len == 2` of
`parse_hex_line`; `mk i` is the new value of `extended_addr`. -/
def extRecord (st : ParserState) (ptr : List Char) (sum : Int)
    (mk : Int → Nat) : Outcome :=
  match sscanf_x 4 ptr with
  | Scan.nomatch => Outcome.ret 1 st
  | Scan.eof => Outcome.undef Fault.uninit
  | Scan.ok i =>
    match sscanf_x 2 (ptr.drop 4) with
    | Scan.nomatch => Outcome.ret 1 st
    | Scan.eof => Outcome.undef Fault.uninit
    | Scan.ok cksum =>
      if cksumOk (sum + ((i / 256) % 256 + i % 256)) cksum then
        Outcome.ret 1 { st with extended_addr := mk i }
      else Outcome.ret 1 st

/-- The part of `parse_hex_line` after the three header fields are read. -/
def parseBody (cfg : Config) (st : ParserState) (ptr : List Char)
    (len addr code : Int) : Outcome :=
  if toU32 (addr + st.extended_addr + len) ≥ MAX_MEMORY_SIZE then
    Outcome.ret 0 st
  else
    let sum := len % 256 + (addr / 256) % 256 + addr % 256 + code % 256
    if code ≠ 0 then
      if code = 1 then Outcome.ret 1 { st with end_record_seen := 1 }
      else if code = 2 ∧ len = 2 then
        extRecord st ptr sum (fun i => toU32 (i * 16))
      else if code = 4 ∧ len = 2 then
        extRecord st ptr sum (linearAddr cfg)
      else Outcome.ret 1 st
    else
      dataLoop addr len 257
        { st with byte_count := wrapInt (st.byte_count + len) } ptr sum 0

/-- Model of `parse_hex_line(line)`. -/
def parse_hex_line (cfg : Config) (st : ParserState) (line : List Char) :
    Outcome :=
  match line with
  | [] => Outcome.ret 0 st
  | c0 :: p1 =>
    if c0.toNat ≠ 58 then Outcome.ret 0 st
    else if line.length < 11 then Outcome.ret 0 st
    else
      match sscanf_x 2 p1 with
      | Scan.nomatch => Outcome.ret 0 st
      | Scan.eof => Outcome.undef Fault.uninit
      | Scan.ok len =>
        if (line.length : Int) < 11 + len * 2 then Outcome.ret 0 st
        else
          match sscanf_x 4 (p1.drop 2) with
          | Scan.nomatch => Outcome.ret 0 st
          | Scan.eof => Outcome.undef Fault.uninit
          | Scan.ok addr =>
            match sscanf_x 2 (p1.drop 6) with
            | Scan.nomatch => Outcome.ret 0 st
            | Scan.eof => Outcome.undef Fault.uninit
            | Scan.ok code => parseBody cfg st (p1.drop 8) len addr code

/-! ## `read_intel_hex` -/

/-- The state set up at the start of `read_intel_hex`. -/
def resetState : ParserState :=
  { firmware_image := fun _ => 0xFF
    firmware_mask := fun _ => 0
    end_record_seen := 0
    byte_count := 0
    extended_addr := 0 }

/-- One pass of the loop body of `read_intel_hex` up to the test of the
parser result: `if (*buf)` skips the parser for an empty buffer. -/
def lineOutcome (cfg : Config) (st : ParserState) (buf : List Char) : Outcome :=
  if buf ≠ [] then parse_hex_line cfg st buf else Outcome.ret 1 st

/-- The `while (!feof(fp))` loop of `read_intel_hex` over the buffers that
`fgets` yields. The test `feof(stdin)` is never true, the program does not
read its standard input. -/
def readLoop (cfg : Config) : ParserState → List (List Char) → Outcome
  | st, [] => Outcome.ret st.byte_count st
  | st, buf :: more =>
    match lineOutcome cfg st buf with
    | Outcome.undef f => Outcome.undef f
    | Outcome.ret r st1 =>
      if r = 0 then Outcome.ret (-2) st1
      else if st1.end_record_seen ≠ 0 then Outcome.ret st1.byte_count st1
      else readLoop cfg st1 more

/-- Model of `read_intel_hex(filename)`: `file` is `none` when `fopen` fails,
else the buffers read by `fgets`. The previous state is overwritten. -/
def read_intel_hex (cfg : Config) (_prev : ParserState)
    (file : Option (List (List Char))) : Outcome :=
  match file with
  | none => Outcome.ret (-1) resetState
  | some lines => readLoop cfg resetState lines

/-! ## Memory image queries -/

/-- The loop `for (i = begin; i <= end; i++)` of `ihex_bytes_within_range`,
with `n` iterations left from index `i`. -/
def rangeLoop (mask : Nat → Nat) : Nat → Nat → Int
  | _, 0 => 0
  | i, n + 1 => if mask i ≠ 0 then 1 else rangeLoop mask (i + 1) n

/-- Model of `ihex_bytes_within_range(begin, end)`. -/
def ihex_bytes_within_range (st : ParserState) (begin_addr end_addr : Int) : Int :=
  if begin_addr < 0 ∨ begin_addr ≥ MAX_MEMORY_SIZE ∨
      end_addr < 0 ∨ end_addr ≥ MAX_MEMORY_SIZE then 0
  else rangeLoop st.firmware_mask begin_addr.toNat (end_addr + 1 - begin_addr).toNat

/-- The second loop of `ihex_get_data`: `n` bytes from index `addr`. -/
def getLoop (st : ParserState) : Nat → Nat → List Nat
  | _, 0 => []
  | addr, n + 1 =>
    (if st.firmware_mask addr ≠ 0 then st.firmware_image addr else 255) ::
      getLoop st (addr + 1) n

/-- Model of `ihex_get_data(addr, len, bytes)`: the bytes stored into `bytes`.
The result is `none` when the `int` sum `addr + len` overflows. -/
def ihex_get_data (st : ParserState) (addr len : Int) : Option (List Nat) :=
  if addr < 0 ∨ len < 0 then some (List.replicate len.toNat 255)
  else if 2147483647 < addr + len then none
  else if addr + len ≥ MAX_MEMORY_SIZE then some (List.replicate len.toNat 255)
  else some (getLoop st addr.toNat len.toNat)

/-- The loop `while (block_size && addr < MAX_MEMORY_SIZE)` of
`memory_is_blank`. The first argument is `MAX_MEMORY_SIZE - addr`, the number
of indices left below the bound: when it is 0 the loop test fails. -/
def blankLoop (st : ParserState) : Nat → Nat → Int → Int
  | 0, _, _ => 1
  | left + 1, addr, block_size =>
    if block_size ≠ 0 ∧ addr < MAX_MEMORY_SIZE then
      if st.firmware_mask addr ≠ 0 ∧ st.firmware_image addr ≠ 255 then 0
      else blankLoop st left (addr + 1) (block_size - 1)
    else 1

/-- Model of `memory_is_blank(addr, block_size)`. -/
def memory_is_blank (st : ParserState) (addr block_size : Int) : Int :=
  if addr < 0 ∨ addr > MAX_MEMORY_SIZE then 1
  else blankLoop st (MAX_MEMORY_SIZE - addr.toNat) addr.toNat block_size

/-! ## The programming loop of `main` -/

/-- The three header layouts of the programming loop, in the order of the
branches of its `if` chain. -/
inductive HeaderVariant where
  /-- Branch `block_size <= 256 && code_size < 0x10000`: two address bytes. -/
  | A
  /-- Branch `block_size == 256`: two page-index bytes. -/
  | B
  /-- Branch `block_size == 512 || block_size == 1024`: three address bytes and
  61 zero bytes. -/
  | C
  deriving DecidableEq, Repr

/-- The branch of the `if` chain taken for a block; `none` is the final
`else` branch `die("Unknown code/block size")`. -/
def headerVariant (block_size code_size : Int) : Option HeaderVariant :=
  if block_size ≤ 256 ∧ code_size < 0x10000 then some HeaderVariant.A
  else if block_size = 256 then some HeaderVariant.B
  else if block_size = 512 ∨ block_size = 1024 then some HeaderVariant.C
  else none

/-- The header bytes stored at the front of `buf` for the block at `addr`. -/
def headerBytes : HeaderVariant → Int → List Nat
  | HeaderVariant.A, addr => [(addr % 256).toNat, (addr / 256 % 256).toNat]
  | HeaderVariant.B, addr => [(addr / 256 % 256).toNat, (addr / 65536 % 256).toNat]
  | HeaderVariant.C, addr =>
    [(addr % 256).toNat, (addr / 256 % 256).toNat, (addr / 65536 % 256).toNat] ++
      List.replicate 61 0

/-- The value given to `write_size` in each branch. -/
def writeSize : HeaderVariant → Int → Int
  | HeaderVariant.A, block_size => block_size + 2
  | HeaderVariant.B, block_size => block_size + 2
  | HeaderVariant.C, block_size => block_size + 64

/-- The value of `write_size` computed before the HEX file is read. -/
def initialWriteSize (cfg : Config) : Int :=
  if cfg.block_size = 512 ∨ cfg.block_size = 1024 then cfg.block_size + 64
  else cfg.block_size + 2

/-- One call `teensy_write(buf, write_size, timeout)` of the programming loop:
the block address it was built for, the first `write_size` bytes of `buf`,
the timeout in milliseconds and the value the call returned. -/
structure BlockWrite where
  addr : Int
  buf : List Nat
  len : Int
  timeout_ms : Nat
  ok : Bool

/-- How the programming loop ends. -/
inductive Stop where
  /-- The loop ran to `addr >= code_size`; `write_size` is its last value. -/
  | finished (write_size : Int)
  /-- The call `die("Unknown code/block size")`. -/
  | die_unknown_size
  /-- The call `die("error writing to Teensy")`. -/
  | die_write_error
  /-- An `int` overflow in `addr + block_size` or `addr + block_size - 1`. -/
  | overflow
  /-- The iteration bound of the model was exhausted. -/
  | fuel
  deriving DecidableEq, Repr

/-- The loop `for (addr = 0; addr < code_size; addr += block_size)` of `main`.
`tw k` is the result of the call of `teensy_write` that follows `k` earlier
calls; the arguments are the iteration bound, `addr`, `first_block`,
`write_size` and the number of calls made so far. -/
def programLoop (cfg : Config) (st : ParserState) (tw : Nat → Bool) :
    Nat → Int → Bool → Int → Nat → List BlockWrite × Stop
  | 0, _, _, _, _ => ([], Stop.fuel)
  | fuel + 1, addr, first_block, write_size, k =>
    if ¬ addr < cfg.code_size then ([], Stop.finished write_size)
    else if 2147483647 < addr + cfg.block_size ∨ addr + cfg.block_size < -2147483648 ∨
        (first_block = false ∧ addr + cfg.block_size - 1 < -2147483648) then
      ([], Stop.overflow)
    else if first_block = false ∧
        ihex_bytes_within_range st addr (addr + cfg.block_size - 1) = 0 then
      programLoop cfg st tw fuel (addr + cfg.block_size) first_block write_size k
    else if first_block = false ∧ memory_is_blank st addr cfg.block_size ≠ 0 then
      programLoop cfg st tw fuel (addr + cfg.block_size) first_block write_size k
    else
      match headerVariant cfg.block_size cfg.code_size with
      | none => ([], Stop.die_unknown_size)
      | some v =>
        match ihex_get_data st addr cfg.block_size with
        | none => ([], Stop.overflow)
        | some data =>
          let w : BlockWrite :=
            { addr := addr
              buf := headerBytes v addr ++ data
              len := writeSize v cfg.block_size
              timeout_ms := if first_block then 5000 else 500
              ok := tw k }
          if w.ok = false then ([w], Stop.die_write_error)
          else
            let rest := programLoop cfg st tw fuel (addr + cfg.block_size) false w.len (k + 1)
            (w :: rest.1, rest.2)

/-- The programming loop as `main` starts it: `addr = 0`, `first_block = 1`,
`write_size` as computed at the start. With a positive `block_size` the loop
body runs at most `code_size` times. -/
def program (cfg : Config) (st : ParserState) (tw : Nat → Bool) :
    List BlockWrite × Stop :=
  programLoop cfg st tw (cfg.code_size.toNat + 1) 0 true (initialWriteSize cfg) 0

/-! ## Lines given by their decoded bytes -/

/-- One byte of a record as it appears in a line: two hexadecimal digit
characters, upper or lower case. -/
structure HexByte where
  hi : Char
  lo : Char
  hi_ok : (hexDigitVal hi).isSome = true
  lo_ok : (hexDigitVal lo).isSome = true

/-- The byte value that two hexadecimal digits encode. -/
def HexByte.val (b : HexByte) : Nat :=
  (hexDigitVal b.hi).getD 0 * 16 + (hexDigitVal b.lo).getD 0

/-- The upper-case hexadecimal digit of value `d % 16`. -/
def hexChar (d : Nat) : Char :=
  if d % 16 < 10 then Char.ofNat (48 + d % 16) else Char.ofNat (55 + d % 16)

/-- The upper-case encoding of the byte `n % 256`. -/
def HexByte.ofNat (n : Nat) : HexByte :=
  have h : ∀ k : Fin 16, (hexDigitVal (hexChar k.val)).isSome = true := by decide
  { hi := hexChar (n / 16)
    lo := hexChar n
    hi_ok := by
      have := h ⟨n / 16 % 16, Nat.mod_lt _ (by norm_num)⟩
      simpa [hexChar] using this
    lo_ok := by
      have := h ⟨n % 16, Nat.mod_lt _ (by norm_num)⟩
      simpa [hexChar] using this }

/-- The characters of a data field. -/
def dataChars : List HexByte → List Char
  | [] => []
  | b :: bs => b.hi :: b.lo :: dataChars bs

/-- The sum of the bytes of a data field. -/
def sumVals : List HexByte → Int
  | [] => 0
  | b :: bs => (b.val : Int) + sumVals bs

/-- The line `:LLAAAATTDD...DDCC` followed by `tail` (a line terminator, for
instance), given by its length byte, two address bytes, record-type byte,
data bytes and checksum byte. -/
def hexLine (len ah al code : HexByte) (data : List HexByte) (ck : HexByte)
    (tail : List Char) : List Char :=
  Char.ofNat 58 :: len.hi :: len.lo :: ah.hi :: ah.lo :: al.hi :: al.lo ::
    code.hi :: code.lo :: (dataChars data ++ ck.hi :: ck.lo :: tail)

/-- The fields `len`, `addr` and `code` as `parse_hex_line` reads them from a
line, when all three conversions assign a value. -/
def lineFields (line : List Char) : Option (Int × Int × Int) :=
  match line with
  | [] => none
  | _ :: p1 =>
    match sscanf_x 2 p1, sscanf_x 4 (p1.drop 2), sscanf_x 2 (p1.drop 6) with
    | Scan.ok len, Scan.ok addr, Scan.ok code => some (len, addr, code)
    | _, _, _ => none

/-- The image or the mask differs at index `a` between two states. -/
def Changed (s0 s1 : ParserState) (a : Nat) : Prop :=
  s1.firmware_image a ≠ s0.firmware_image a ∨ s1.firmware_mask a ≠ s0.firmware_mask a

/-- The options of an ATmega32U4 (Teensy 2.0) from the MCU table. -/
def cfg0 : Config := { code_size := 32256, block_size := 128 }

/-- The options of an i.MX RT1062 (Teensy 4.0) from the MCU table. -/
def cfg40 : Config := { code_size := 2031616, block_size := 1024 }

/-! ## Target addresses of the data records of a load -/

/-- The buffer `buf` after `memset(buf, 0, write_size)`. -/
def memsetZero (buf : List Nat) (write_size : Nat) : List Nat :=
  List.replicate write_size 0 ++ buf.drop write_size

/-- One call `teensy_write(buf, write_size, timeout)` of `boot`: the first
`write_size` bytes of `buf` and the timeout in milliseconds. -/
structure BootWrite where
  buf : List Nat
  len : Int
  timeout_ms : Nat
  deriving DecidableEq, Repr

/-- Model of `boot(buf, write_size)`: the call of `teensy_write` it makes.
The argument `buf` is the previous content of the caller's buffer. The result
is `none` when `memset` or one of the three stores leaves the buffer. -/
def boot (buf : List Nat) (write_size : Int) : Option BootWrite :=
  if write_size < 0 ∨ buf.length < write_size.toNat ∨ buf.length < 3 then none
  else
    let b := 255 :: 255 :: 255 :: (memsetZero buf write_size.toNat).drop 3
    some { buf := b.take write_size.toNat, len := write_size, timeout_ms := 500 }

/-! ## `main` -/

/-- The options set by `parse_options`, apart from `code_size` and
`block_size`; `filename_given` is `filename != NULL`. -/
structure Options where
  wait_for_device_to_appear : Bool
  reboot_after_programming : Bool
  boot_only : Bool
  filename_given : Bool

/-- What a run of `main` does to the device, in order. -/
inductive Event where
  /-- A call of `teensy_open` that returned 0. -/
  | open_failed
  /-- A call of `teensy_open` that returned 1: the device handle is open. -/
  | opened
  /-- A call of `teensy_write` for a block in the programming loop. -/
  | block (addr : Int) (buf : List Nat) (len : Int) (timeout_ms : Nat) (ok : Bool)
  /-- The call of `teensy_write` made by `boot`. -/
  | reboot (buf : List Nat) (len : Int) (timeout_ms : Nat)
  /-- A call of `teensy_close` with the handle open. -/
  | closed
  deriving DecidableEq, Repr

/-- The event of a block write of the programming loop. -/
def blockEvent (w : BlockWrite) : Event :=
  Event.block w.addr w.buf w.len w.timeout_ms w.ok

/-- A run of `main`: the events in order, and the exit status of the process
(`none` when the run leaves the defined behaviour of C). -/
structure Run where
  events : List Event
  exit_status : Option Int
  deriving DecidableEq, Repr

/-- The file-scope variables of the reader at program start (static storage is
zero-initialised). -/
def startState : ParserState :=
  { firmware_image := fun _ => 0
    firmware_mask := fun _ => 0
    end_record_seen := 0
    byte_count := 0
    extended_addr := 0 }

/-- The content of the local array `buf` of `main` after the programming loop:
the last block written, over the content `stack` the array had before. -/
def bufAfter (stack : List Nat) (writes : List BlockWrite) : List Nat :=
  match writes.getLast? with
  | none => stack
  | some w => w.buf ++ stack.drop w.buf.length

/-- The end of `main`: `boot` when asked for, `teensy_close`, `return 0`. -/
def finishRun (events : List Event) (do_boot : Bool) (buf : List Nat)
    (write_size : Int) : Run :=
  if do_boot then
    match boot buf write_size with
    | none => { events := events, exit_status := none }
    | some b =>
      { events := events ++ [Event.reboot b.buf b.len b.timeout_ms, Event.closed]
        exit_status := some 0 }
  else { events := events ++ [Event.closed], exit_status := some 0 }

/-- The part of `main` after the device is opened. `waited` is the flag of
the same name, `st` the state left by the first load, `file2` the content of
the HEX file when it is read again, `events` the events so far. -/
def afterOpen (cfg : Config) (opts : Options) (st : ParserState)
    (file2 : Option (List (List Char))) (waited : Bool) (tw : Nat → Bool)
    (stack : List Nat) (events : List Event) : Run :=
  if opts.boot_only then finishRun events true stack (initialWriteSize cfg)
  else
    match (if waited then read_intel_hex cfg st file2 else Outcome.ret 0 st) with
    | Outcome.undef _ => { events := events, exit_status := none }
    | Outcome.ret num st2 =>
      if num < 0 then { events := events, exit_status := some 1 }
      else
        let p := program cfg st2 tw
        let ev := events ++ p.1.map blockEvent
        match p.2 with
        | Stop.finished ws =>
          finishRun ev opts.reboot_after_programming (bufAfter stack p.1) ws
        | Stop.die_unknown_size => { events := ev, exit_status := some 1 }
        | Stop.die_write_error => { events := ev, exit_status := some 1 }
        | Stop.overflow => { events := ev, exit_status := none }
        | Stop.fuel => { events := ev, exit_status := none }

/-- Model of `main` after `parse_options`. `file1` and `file2` are the content
of the HEX file at the first and at the second call of `read_intel_hex`
(`none` when `fopen` fails), `open_fails` is the number of calls of
`teensy_open` that return 0 before one returns 1, `tw` answers the calls of
`teensy_write` of the programming loop, `stack` is the initial content of the
local array `buf` (2048 bytes). An exit through `usage` or `die` has exit
status 1. -/
def main (cfg : Config) (opts : Options) (file1 file2 : Option (List (List Char)))
    (open_fails : Nat) (tw : Nat → Bool) (stack : List Nat) : Run :=
  if opts.filename_given = false ∧ opts.boot_only = false then
    { events := [], exit_status := some 1 }
  else if cfg.code_size = 0 then { events := [], exit_status := some 1 }
  else
    match (if opts.boot_only then Outcome.ret 0 startState
        else read_intel_hex cfg startState file1) with
    | Outcome.undef _ => { events := [], exit_status := none }
    | Outcome.ret num st =>
      if num < 0 then { events := [], exit_status := some 1 }
      else if 0 < open_fails ∧ opts.wait_for_device_to_appear = false then
        { events := [Event.open_failed], exit_status := some 1 }
      else
        afterOpen cfg opts st file2 (decide (0 < open_fails)) tw stack
          (List.replicate open_fails Event.open_failed ++ [Event.opened])

/-! ## The MCU table -/

/-- The table `MCUs` (built with `USE_WIN32` defined): name, `code_size`,
`block_size`. -/
def MCUs : List (String × Int × Int) :=
  [("at90usb162", 15872, 128),
   ("atmega32u4", 32256, 128),
   ("at90usb646", 64512, 256),
   ("at90usb1286", 130048, 256),
   ("mkl26z64", 63488, 512),
   ("mk20dx128", 131072, 1024),
   ("mk20dx256", 262144, 1024),
   ("mk66fx1m0", 1048576, 1024),
   ("mk64fx512", 524288, 1024),
   ("imxrt1062", 2031616, 1024),
   ("TEENSY2", 32256, 128),
   ("TEENSY2PP", 130048, 256),
   ("TEENSYLC", 63488, 512),
   ("TEENSY30", 131072, 1024),
   ("TEENSY31", 262144, 1024),
   ("TEENSY32", 262144, 1024),
   ("TEENSY35", 524288, 1024),
   ("TEENSY36", 1048576, 1024),
   ("TEENSY40", 2031616, 1024),
   ("TEENSY41", 8126464, 1024),
   ("TEENSY_MICROMOD", 16515072, 1024)]

/-! ## Length fields of the data records of a load -/

/-- The sum of the length fields of the data records (type 00) among the
lines up to the first end-of-file record (type 01) or the end of the input. -/
def lenSum : List (List Char) → Int
  | [] => 0
  | l :: ls =>
    match lineFields l with
    | some (len, _, code) =>
      if code = 0 then len + lenSum ls else if code = 1 then 0 else lenSum ls
    | none => lenSum ls

/-- The options of a plain programming run: no wait, reboot, a file name. -/
def optsDefault : Options :=
  { wait_for_device_to_appear := false
    reboot_after_programming := true
    boot_only := false
    filename_given := true }

/-- The two tests of the programming loop that end the iteration for the
block at `addr` with `continue`: the block is skipped. -/
def skipsBlock (cfg : Config) (st : ParserState) (addr : Int) (first_block : Bool) : Prop :=
  (first_block = false ∧
    ihex_bytes_within_range st addr (addr + cfg.block_size - 1) = 0) ∨
  (first_block = false ∧ memory_is_blank st addr cfg.block_size ≠ 0)

/-- The event is a call of `teensy_write`: a block or the reboot buffer. -/
def Event.isWrite : Event → Bool
  | Event.block _ _ _ _ _ => true
  | Event.reboot _ _ _ => true
  | _ => false

/-- The event is a block write for which `teensy_write` returned 0. -/
def Event.isFailedBlock : Event → Bool
  | Event.block _ _ _ _ ok => !ok
  | _ => false

/-- The options of a run that waits for the device. -/
def optsWait : Options :=
  { wait_for_device_to_appear := true
    reboot_after_programming := true
    boot_only := false
    filename_given := true }

/-- The options of a boot-only run. -/
def optsBootOnly : Options :=
  { wait_for_device_to_appear := false
    reboot_after_programming := true
    boot_only := true
    filename_given := false }

/-- A device with one block: `code_size = 128`, `block_size = 128`. -/
def cfgOneBlock : Config := { code_size := 128, block_size := 128 }

/-! # Theorems -/

/-! ## Scanning and parsing lines given by their bytes -/

theorem hexDigitVal_facts {c : Char} (h : (hexDigitVal c).isSome = true) :
    ∃ d, hexDigitVal c = some d ∧ d < 16 ∧ isSpaceC c = false ∧ c.toNat ≠ 45 ∧
      c.toNat ≠ 43 ∧ c.toNat ≠ 120 ∧ c.toNat ≠ 88 := by
  unfold hexDigitVal at h ⊢
  unfold isSpaceC
  split_ifs at h ⊢ <;> simp at h ⊢ <;> omega

theorem HexByte.val_lt (b : HexByte) : b.val < 256 := by
  obtain ⟨d1, he1, h1, -⟩ := hexDigitVal_facts b.hi_ok
  obtain ⟨d2, he2, h2, -⟩ := hexDigitVal_facts b.lo_ok
  simp only [HexByte.val, he1, he2, Option.getD_some]; omega

theorem sscanf_x_two (b : HexByte) (rest : List Char) :
    sscanf_x 2 (b.hi :: b.lo :: rest) = Scan.ok (b.val : Int) := by
  obtain ⟨d1, he1, h1, hs1, hm1, hp1, hx1, hX1⟩ := hexDigitVal_facts b.hi_ok
  obtain ⟨d2, he2, h2, hs2, hm2, hp2, hx2, hX2⟩ := hexDigitVal_facts b.lo_ok
  simp [sscanf_x, skipSpace, hs1, scanSign, hm1, hp1, scanBase, hx2, hX2, hexDigits,
    he1, he2, HexByte.val]

theorem sscanf_x_four (a b : HexByte) (rest : List Char) :
    sscanf_x 4 (a.hi :: a.lo :: b.hi :: b.lo :: rest) =
      Scan.ok ((a.val : Int) * 256 + b.val) := by
  obtain ⟨d1, he1, h1, hs1, hm1, hp1, hx1, hX1⟩ := hexDigitVal_facts a.hi_ok
  obtain ⟨d2, he2, h2, hs2, hm2, hp2, hx2, hX2⟩ := hexDigitVal_facts a.lo_ok
  obtain ⟨d3, he3, h3, hs3, hm3, hp3, hx3, hX3⟩ := hexDigitVal_facts b.hi_ok
  obtain ⟨d4, he4, h4, hs4, hm4, hp4, hx4, hX4⟩ := hexDigitVal_facts b.lo_ok
  simp [sscanf_x, skipSpace, hs1, scanSign, hm1, hp1, scanBase, hx2, hX2, hexDigits,
    he1, he2, he3, he4, HexByte.val]
  ring

theorem dataChars_length (data : List HexByte) :
    (dataChars data).length = 2 * data.length := by
  induction data with
  | nil => rfl
  | cons b bs ih => simp [dataChars, ih]; omega

theorem hexLine_length (len ah al code : HexByte) (data : List HexByte)
    (ck : HexByte) (tail : List Char) :
    (hexLine len ah al code data ck tail).length = 11 + 2 * data.length + tail.length := by
  simp [hexLine, dataChars_length]; omega

theorem parse_hexLine (cfg : Config) (st : ParserState) (len ah al code : HexByte)
    (data : List HexByte) (ck : HexByte) (tail : List Char)
    (hlen : data.length = len.val) :
    parse_hex_line cfg st (hexLine len ah al code data ck tail) =
      parseBody cfg st (dataChars data ++ ck.hi :: ck.lo :: tail) (len.val : Int)
        ((ah.val : Int) * 256 + al.val) (code.val : Int) := by
  have hl := hexLine_length len ah al code data ck tail
  unfold parse_hex_line
  simp only [hexLine] at hl ⊢
  have h58 : (Char.ofNat 58).toNat = 58 := by decide
  simp only [h58, ne_eq, not_true_eq_false, if_false, sscanf_x_two, List.drop_succ_cons,
    List.drop_zero, sscanf_x_four]
  rw [if_neg (by omega), if_neg (by rw [hl]; push_cast; omega)]

theorem dataLoop_hex (addr len : Int) (ck : HexByte) (tail : List Char) :
    ∀ (data : List HexByte) (fuel : Nat) (st : ParserState) (sum num : Int),
      data.length < fuel → num + data.length = len → len < 256 → 0 ≤ num →
      (∀ j : Nat, j < data.length →
        toU32 (addr + st.extended_addr + (num + j)) < MAX_MEMORY_SIZE) →
      ∃ s1, s1.extended_addr = st.extended_addr ∧
        dataLoop addr len fuel st (dataChars data ++ ck.hi :: ck.lo :: tail) sum num =
          Outcome.ret (if cksumOk (sum + sumVals data) ck.val then 1 else 0) s1 := by
  intro data
  induction data with
  | nil =>
    intro fuel st sum num hf hn _ _ _
    obtain ⟨f, rfl⟩ : ∃ f, fuel = f + 1 := ⟨fuel - 1, by simp at hf; omega⟩
    refine ⟨st, rfl, ?_⟩
    have hnl : num = len := by simpa using hn
    simp only [dataLoop, dataChars, List.nil_append, sscanf_x_two, sumVals, add_zero, hnl,
      ne_eq, not_true_eq_false, if_false]
    split <;> rfl
  | cons b bs ih =>
    intro fuel st sum num hf hn hl h0 hidx
    obtain ⟨f, rfl⟩ : ∃ f, fuel = f + 1 := ⟨fuel - 1, by simp at hf; omega⟩
    simp only [List.length_cons] at hf hn hidx
    have hnl : num ≠ len := by push_cast at hn; omega
    have hb := b.val_lt
    have hi0 := hidx 0 (by omega)
    simp only [Nat.cast_zero, add_zero] at hi0
    have hmod : ((b.val : Int) % 256) = b.val := by omega
    obtain ⟨s1, hs1, he⟩ := ih f (storeByte st (toU32 (addr + st.extended_addr + num)) b.val)
      (sum + b.val) (num + 1) (by omega) (by push_cast at hn ⊢; omega) hl (by omega)
      (by
        intro j hj
        have := hidx (j + 1) (by omega)
        simpa [storeByte, add_assoc, add_comm, add_left_comm] using this)
    refine ⟨s1, by simpa [storeByte] using hs1, ?_⟩
    simp only [dataLoop, dataChars, List.cons_append, sscanf_x_two, hmod, ne_eq, hnl,
      not_false_eq_true, if_true, Int.toNat_ofNat, List.drop_succ_cons, List.drop_zero,
      List.length_cons, sumVals]
    rw [if_neg (by omega), if_neg (by push_cast at hn; omega), if_neg (by omega)]
    rw [he, add_assoc]

theorem parseBody_data (cfg : Config) (st : ParserState) (ptr : List Char)
    (len addr : Int) :
    parseBody cfg st ptr len addr 0 =
      if toU32 (addr + st.extended_addr + len) ≥ MAX_MEMORY_SIZE then Outcome.ret 0 st
      else dataLoop addr len 257 { st with byte_count := wrapInt (st.byte_count + len) }
        ptr (len % 256 + (addr / 256) % 256 + addr % 256 + 0 % 256) 0 := by
  simp [parseBody]

theorem toU32_small (x : Int) (h0 : 0 ≤ x) (h1 : x < 4294967296) : (toU32 x : Int) = x := by
  unfold toU32
  rw [Int.toNat_of_nonneg (by omega)]
  omega

theorem parse_data_line (cfg : Config) (st : ParserState) (len ah al code : HexByte)
    (data : List HexByte) (ck : HexByte) (tail : List Char)
    (hcode : code.val = 0) (hlen : data.length = len.val)
    (hext : st.extended_addr + 65790 < 4294967296) :
    ∃ s1, parse_hex_line cfg st (hexLine len ah al code data ck tail) =
      Outcome.ret
        (if MAX_MEMORY_SIZE ≤ ah.val * 256 + al.val + st.extended_addr + len.val then 0
         else if cksumOk ((len.val : Int) + ah.val + al.val + sumVals data) ck.val then 1
         else 0) s1 := by
  have hl := len.val_lt
  have hah := ah.val_lt
  have hal := al.val_lt
  rw [parse_hexLine cfg st len ah al code data ck tail hlen, hcode]
  simp only [Nat.cast_zero, parseBody_data]
  have hu : (toU32 ((ah.val : Int) * 256 + al.val + st.extended_addr + len.val) : Int) =
      (ah.val : Int) * 256 + al.val + st.extended_addr + len.val :=
    toU32_small _ (by omega) (by omega)
  by_cases hc : MAX_MEMORY_SIZE ≤ ah.val * 256 + al.val + st.extended_addr + len.val
  · refine ⟨st, ?_⟩
    have : toU32 ((ah.val : Int) * 256 + al.val + st.extended_addr + len.val) ≥
        MAX_MEMORY_SIZE := by
      have : (MAX_MEMORY_SIZE : Int) ≤
          toU32 ((ah.val : Int) * 256 + al.val + st.extended_addr + len.val) := by
        rw [hu]; exact_mod_cast hc
      exact_mod_cast this
    rw [if_pos this, if_pos hc]
  · have hlt : ¬ toU32 ((ah.val : Int) * 256 + al.val + st.extended_addr + len.val) ≥
        MAX_MEMORY_SIZE := by
      intro h
      have h2 : (MAX_MEMORY_SIZE : Int) ≤
          toU32 ((ah.val : Int) * 256 + al.val + st.extended_addr + len.val) := by
        exact_mod_cast h
      rw [hu] at h2
      exact hc (by exact_mod_cast h2)
    rw [if_neg hlt, if_neg hc]
    obtain ⟨s1, -, he⟩ := dataLoop_hex ((ah.val : Int) * 256 + al.val) len.val ck tail data 257
      { st with byte_count := wrapInt (st.byte_count + len.val) }
      ((len.val : Int) % 256 + ((ah.val : Int) * 256 + al.val) / 256 % 256 +
        ((ah.val : Int) * 256 + al.val) % 256 + 0 % 256) 0
      (by omega) (by simp [hlen]) (by omega) (le_refl _)
      (by
        intro j hj
        simp only [zero_add]
        have hj2 : (toU32 ((ah.val : Int) * 256 + al.val + st.extended_addr + j) : Int) =
            (ah.val : Int) * 256 + al.val + st.extended_addr + j :=
          toU32_small _ (by omega) (by omega)
        have hM : MAX_MEMORY_SIZE = 16777216 := rfl
        rw [hM] at hc ⊢
        omega)
    refine ⟨s1, ?_⟩
    rw [he]
    have hs : ((len.val : Int) % 256 + ((ah.val : Int) * 256 + al.val) / 256 % 256 +
        ((ah.val : Int) * 256 + al.val) % 256 + 0 % 256) =
        (len.val : Int) + ah.val + al.val := by omega
    rw [hs]

theorem cksumOk_iff (s c : Int) : cksumOk s c = true ↔ (s + c) % 256 = 0 := by
  unfold cksumOk
  simp only [decide_eq_true_eq]
  omega

theorem sumVals_set (data : List HexByte) (q : HexByte) :
    ∀ (i : Nat) (hi : i < data.length),
      sumVals (data.set i q) = sumVals data - (data[i]).val + q.val := by
  induction data with
  | nil => intro i hi; simp at hi
  | cons b bs ih =>
    intro i hi
    cases i with
    | zero => simp [sumVals]; ring
    | succ k =>
      simp only [List.set_cons_succ, sumVals, List.getElem_cons_succ]
      rw [ih k (by simpa using hi)]
      ring

/-- C1 (counterexample): accepted records with a correct checksum stay
accepted after one decoded byte is changed: the checksum byte of an
end-of-file record, the record-type byte of a data record, and the length
byte of a data record. With `extended_addr = 0xFFFFFFF0` the accepted data
record `:01001000AA45` with its low address byte changed to `0F` passes the
address test and stores at index `0xFFFFFFFF` instead of returning 0. -/
theorem C1_changed_byte_still_accepted :
    ((parse_hex_line cfg0 resetState ":00000001FF".toList).retval = some 1 ∧
      cksumOk (0 + 0 + 0 + 1) 0xFF = true ∧
      (parse_hex_line cfg0 resetState ":00000001FE".toList).retval = some 1) ∧
    ((parse_hex_line cfg0 resetState ":0100000000FF".toList).retval = some 1 ∧
      cksumOk (1 + 0 + 0 + 0 + 0) 0xFF = true ∧
      (parse_hex_line cfg0 resetState ":0100000100FF".toList).retval = some 1 ∧
      (parse_hex_line cfg0 resetState ":0000000000FF".toList).retval = some 1) ∧
    ((parse_hex_line cfg0 { resetState with extended_addr := 0xFFFFFFF0 }
        ":01001000AA45".toList).retval = some 1 ∧
      cksumOk (1 + 0 + 0x10 + 0 + 0xAA) 0x45 = true ∧
      (parse_hex_line cfg0 { resetState with extended_addr := 0xFFFFFFF0 }
        ":01000F00AA45".toList).fault = some (Fault.oob 0xFFFFFFFF)) := by
  decide

/-- C1 (amended): for a data record (type 00) that `parse_hex_line` accepts,
in a state where `extended_addr` plus a 16-bit address and 255 bytes stays
below `2^32`, changing one address byte, one data byte or the checksum byte
to a different value makes `parse_hex_line` return 0. -/
theorem C1_data_record_changed_byte_rejected (cfg : Config) (st : ParserState)
    (len ah al code : HexByte) (data : List HexByte) (ck : HexByte)
    (tail : List Char)
    (hcode : code.val = 0) (hlen : data.length = len.val)
    (hext : st.extended_addr + 65790 < 4294967296)
    (hacc : (parse_hex_line cfg st (hexLine len ah al code data ck tail)).retval = some 1) :
    (∀ q : HexByte, q.val ≠ ah.val →
      (parse_hex_line cfg st (hexLine len q al code data ck tail)).retval = some 0) ∧
    (∀ q : HexByte, q.val ≠ al.val →
      (parse_hex_line cfg st (hexLine len ah q code data ck tail)).retval = some 0) ∧
    (∀ q : HexByte, q.val ≠ ck.val →
      (parse_hex_line cfg st (hexLine len ah al code data q tail)).retval = some 0) ∧
    (∀ (i : Nat) (q : HexByte) (hi : i < data.length), q.val ≠ (data[i]).val →
      (parse_hex_line cfg st
        (hexLine len ah al code (data.set i q) ck tail)).retval = some 0) := by
  obtain ⟨s1, h1⟩ := parse_data_line cfg st len ah al code data ck tail hcode hlen hext
  rw [h1] at hacc
  simp only [Outcome.retval, Option.some.injEq] at hacc
  have hck : (((len.val : Int) + ah.val + al.val + sumVals data) + ck.val) % 256 = 0 := by
    rw [← cksumOk_iff]
    by_contra hne
    rw [if_neg hne] at hacc
    split at hacc <;> simp at hacc
  have key : ∀ (len2 ah2 al2 : HexByte) (data2 : List HexByte) (ck2 : HexByte),
      data2.length = len2.val →
      (((len2.val : Int) + ah2.val + al2.val + sumVals data2) + ck2.val) % 256 ≠ 0 →
      (parse_hex_line cfg st (hexLine len2 ah2 al2 code data2 ck2 tail)).retval = some 0 := by
    intro len2 ah2 al2 data2 ck2 hl2 hne
    obtain ⟨s2, h2⟩ := parse_data_line cfg st len2 ah2 al2 code data2 ck2 tail hcode hl2 hext
    rw [h2]
    have : ¬ cksumOk ((len2.val : Int) + ah2.val + al2.val + sumVals data2) ck2.val = true := by
      rw [cksumOk_iff]; exact hne
    simp [Outcome.retval, this]
  have bah := ah.val_lt
  have bal := al.val_lt
  have bck := ck.val_lt
  refine ⟨?_, ?_, ?_, ?_⟩
  · intro q hq
    have bq := q.val_lt
    exact key len q al data ck hlen (by omega)
  · intro q hq
    have bq := q.val_lt
    exact key len ah q data ck hlen (by omega)
  · intro q hq
    have bq := q.val_lt
    exact key len ah al data q hlen (by omega)
  · intro i q hi hq
    have bq := q.val_lt
    have bd := (data[i]).val_lt
    refine key len ah al (data.set i q) ck (by simpa using hlen) ?_
    rw [sumVals_set data q i hi]
    omega

/-- Witness of C1 (amended): the record `:0100000000FF` loaded into the reset
state, and its checksum byte changed to `FE`. -/
theorem C1_data_record_changed_byte_rejected_witness :
    (parse_hex_line cfg0 resetState
      (hexLine (HexByte.ofNat 1) (HexByte.ofNat 0) (HexByte.ofNat 0) (HexByte.ofNat 0)
        [HexByte.ofNat 0] (HexByte.ofNat 255) [])).retval = some 1 ∧
    (parse_hex_line cfg0 resetState
      (hexLine (HexByte.ofNat 1) (HexByte.ofNat 0) (HexByte.ofNat 0) (HexByte.ofNat 0)
        [HexByte.ofNat 0] (HexByte.ofNat 254) [])).retval = some 0 :=
  ⟨by decide,
   (C1_data_record_changed_byte_rejected cfg0 resetState (HexByte.ofNat 1) (HexByte.ofNat 0)
      (HexByte.ofNat 0) (HexByte.ofNat 0) [HexByte.ofNat 0] (HexByte.ofNat 255) []
      (by decide) (by decide) (by decide) (by decide)).2.2.1 (HexByte.ofNat 254) (by decide)⟩

/-- C2 (code at the failing input): after the accepted type-04 record
`:02000004FFFFFC` the value of `extended_addr` is `0xFFFF0000`; the data record
`:01FFFF00AA57` then passes the test `addr + extended_addr + len >=
MAX_MEMORY_SIZE`, because the 32-bit sum wraps to 0, and its first byte is
stored at index `0xFFFFFFFF`, which is not below `MAX_MEMORY_SIZE`. -/
theorem C2_wrapped_address_check_stores_out_of_bounds :
    (read_intel_hex cfg0 resetState (some [":02000004FFFFFC".toList])).state.map
        (fun s => s.extended_addr) = some 0xFFFF0000 ∧
    toU32 (0xFFFF + 0xFFFF0000 + 1) < MAX_MEMORY_SIZE ∧
    (read_intel_hex cfg0 resetState
        (some [":02000004FFFFFC".toList, ":01FFFF00AA57".toList])).fault =
      some (Fault.oob 0xFFFFFFFF) ∧
    ¬ (0xFFFFFFFF < MAX_MEMORY_SIZE) := by
  decide

theorem extRecord_hex (st : ParserState) (vh vl ck : HexByte) (tail : List Char)
    (sum : Int) (mk : Int → Nat)
    (hck : cksumOk (sum + ((vh.val : Int) + vl.val)) ck.val = true) :
    extRecord st (vh.hi :: vh.lo :: vl.hi :: vl.lo :: ck.hi :: ck.lo :: tail) sum mk =
      Outcome.ret 1 { st with extended_addr := mk ((vh.val : Int) * 256 + vl.val) } := by
  have b1 := vh.val_lt
  have b2 := vl.val_lt
  have hs : ((vh.val : Int) * 256 + vl.val) / 256 % 256 + ((vh.val : Int) * 256 + vl.val) % 256
      = (vh.val : Int) + vl.val := by omega
  simp only [extRecord, sscanf_x_four, List.drop_succ_cons, List.drop_zero, sscanf_x_two, hs,
    hck, if_true]

theorem addr_hi_lo (a b : Nat) (ha : a < 256) (hb : b < 256) :
    ((a : Int) * 256 + b) / 256 % 256 = a ∧ ((a : Int) * 256 + b) % 256 = b := by
  omega

theorem parseBody_two (cfg : Config) (st : ParserState) (ptr : List Char) (addr : Int)
    (h : toU32 (addr + st.extended_addr + 2) < MAX_MEMORY_SIZE) :
    parseBody cfg st ptr 2 addr 2 =
      extRecord st ptr (2 + addr / 256 % 256 + addr % 256 + 2) (fun i => toU32 (i * 16)) := by
  have hn : ¬ toU32 (addr + st.extended_addr + 2) ≥ MAX_MEMORY_SIZE := by omega
  simp [parseBody, hn]

theorem parseBody_four (cfg : Config) (st : ParserState) (ptr : List Char) (addr : Int)
    (h : toU32 (addr + st.extended_addr + 2) < MAX_MEMORY_SIZE) :
    parseBody cfg st ptr 2 addr 4 =
      extRecord st ptr (2 + addr / 256 % 256 + addr % 256 + 4) (linearAddr cfg) := by
  have hn : ¬ toU32 (addr + st.extended_addr + 2) ≥ MAX_MEMORY_SIZE := by omega
  simp [parseBody, hn]

theorem linearAddr_hex (cfg : Config) (v : Nat) (hv : v < 65536)
    (hcs : cfg.code_size < 2147483648) :
    linearAddr cfg (v : Int) =
      if cfg.code_size > 1048576 ∧ cfg.block_size ≥ 1024 ∧
          0x60000000 ≤ v * 65536 ∧ ((v * 65536 : Nat) : Int) < 0x60000000 + cfg.code_size
      then v * 65536 - 0x60000000 else v * 65536 := by
  have h16 : toU32 ((v : Int) * 65536) = v * 65536 := by
    have := toU32_small ((v : Int) * 65536) (by omega) (by omega)
    omega
  unfold linearAddr
  simp only [h16]
  by_cases hbig : cfg.code_size > 1048576
  · have hu : (toU32 (0x60000000 + cfg.code_size) : Int) = 0x60000000 + cfg.code_size :=
      toU32_small _ (by omega) (by omega)
    have hiff : (v * 65536 < toU32 (0x60000000 + cfg.code_size)) ↔
        (((v * 65536 : Nat) : Int) < 0x60000000 + cfg.code_size) := by
      omega
    simp only [hiff, ge_iff_le]
  · simp [hbig]

/-- C3: a well-formed length-2 record of type 02 or 04 with a correct checksum
that passes the address test sets `extended_addr` to `V << 4` (type 02), or to
`V << 16` less `0x60000000` when the normalization condition holds and to
`V << 16` otherwise (type 04); nothing else in the state changes and the call
returns 1. -/
theorem C3_extended_address_records (cfg : Config) (st : ParserState)
    (len ah al code vh vl ck : HexByte) (tail : List Char)
    (hlen : len.val = 2)
    (hchk : toU32 ((ah.val : Int) * 256 + al.val + st.extended_addr + 2) < MAX_MEMORY_SIZE)
    (hck : ((2 : Int) + ah.val + al.val + code.val + vh.val + vl.val + ck.val) % 256 = 0)
    (hcs : cfg.code_size < 2147483648) :
    (code.val = 2 →
      parse_hex_line cfg st (hexLine len ah al code [vh, vl] ck tail) =
        Outcome.ret 1 { st with extended_addr := (vh.val * 256 + vl.val) * 16 }) ∧
    (code.val = 4 →
      parse_hex_line cfg st (hexLine len ah al code [vh, vl] ck tail) =
        Outcome.ret 1 { st with extended_addr :=
          if cfg.code_size > 1048576 ∧ cfg.block_size ≥ 1024 ∧
              0x60000000 ≤ (vh.val * 256 + vl.val) * 65536 ∧
              (((vh.val * 256 + vl.val) * 65536 : Nat) : Int) < 0x60000000 + cfg.code_size
          then (vh.val * 256 + vl.val) * 65536 - 0x60000000
          else (vh.val * 256 + vl.val) * 65536 }) := by
  have b1 := vh.val_lt
  have b2 := vl.val_lt
  have bah := ah.val_lt
  have bal := al.val_lt
  have hp := parse_hexLine cfg st len ah al code [vh, vl] ck tail (by simp [hlen])
  simp only [dataChars, List.nil_append, List.cons_append, hlen, Nat.cast_ofNat] at hp
  obtain ⟨e1, e2⟩ := addr_hi_lo ah.val al.val bah bal
  constructor
  · intro hc
    rw [hc] at hck hp
    simp only [Nat.cast_ofNat] at hck hp
    rw [hp, parseBody_two cfg st _ _ hchk, extRecord_hex st vh vl ck tail _ _
      (by rw [cksumOk_iff, e1, e2]; omega)]
    have h16 : toU32 (((vh.val : Int) * 256 + vl.val) * 16) = (vh.val * 256 + vl.val) * 16 := by
      have := toU32_small (((vh.val : Int) * 256 + vl.val) * 16) (by omega) (by omega)
      omega
    rw [h16]
  · intro hc
    rw [hc] at hck hp
    simp only [Nat.cast_ofNat] at hck hp
    rw [hp, parseBody_four cfg st _ _ hchk, extRecord_hex st vh vl ck tail _ _
      (by rw [cksumOk_iff, e1, e2]; omega)]
    have := linearAddr_hex cfg (vh.val * 256 + vl.val) (by omega) hcs
    rw [show (((vh.val * 256 + vl.val : Nat)) : Int) = (vh.val : Int) * 256 + vl.val from by
      push_cast; ring] at this
    rw [this]

/-- Witness of C3: the record `:0200000460009A` for a Teensy 4.0 sets
`extended_addr` to `0x60000000 - 0x60000000`. -/
theorem C3_extended_address_records_witness :
    parse_hex_line cfg40 resetState
        (hexLine (HexByte.ofNat 2) (HexByte.ofNat 0) (HexByte.ofNat 0) (HexByte.ofNat 4)
          [HexByte.ofNat 0x60, HexByte.ofNat 0] (HexByte.ofNat 0x9A) []) =
      Outcome.ret 1 { resetState with extended_addr := 0 } :=
  (C3_extended_address_records cfg40 resetState (HexByte.ofNat 2) (HexByte.ofNat 0)
    (HexByte.ofNat 0) (HexByte.ofNat 4) (HexByte.ofNat 0x60) (HexByte.ofNat 0)
    (HexByte.ofNat 0x9A) [] (by decide) (by decide) (by decide) (by decide)).2 (by decide)

/-! ## What a call of the parser can change -/

/-- The iteration bound 257 of the data loop is never exhausted. -/
theorem dataLoop_fuel (addr len : Int) :
    ∀ (fuel : Nat) (st : ParserState) (ptr : List Char) (sum num : Int),
      0 ≤ num → num < 256 → 257 ≤ num + fuel →
      dataLoop addr len fuel st ptr sum num ≠ Outcome.undef Fault.fuel := by
  intro fuel
  induction fuel with
  | zero => intro st ptr sum num h0 h1 h2; omega
  | succ f ih =>
    intro st ptr sum num h0 h1 h2
    unfold dataLoop
    by_cases hnl : num ≠ len
    · rw [if_pos hnl]
      split
      · dsimp only
        by_cases ho : MAX_MEMORY_SIZE ≤ toU32 (addr + st.extended_addr + num)
        · rw [if_pos ho]; simp
        rw [if_neg ho]
        by_cases h256 : num + 1 ≥ 256
        · rw [if_pos h256]; simp
        rw [if_neg h256]
        by_cases hs : ptr.length < 2
        · rw [if_pos hs]; simp
        rw [if_neg hs]
        exact ih _ _ _ _ (by omega) (by omega) (by push_cast at h2; omega)
      · simp
    · rw [if_neg hnl]
      split
      · simp
      · simp
      · split_ifs <;> simp

theorem extRecord_fuel (st : ParserState) (ptr : List Char) (sum : Int) (mk : Int → Nat) :
    extRecord st ptr sum mk ≠ Outcome.undef Fault.fuel := by
  unfold extRecord
  split
  · simp
  · simp
  · split
    · simp
    · simp
    · split_ifs <;> simp

/-- A call of `parse_hex_line` never exhausts the iteration bound of the
model: it returns, or it leaves the defined behaviour of C. -/
theorem parse_hex_line_fuel (cfg : Config) (st : ParserState) (line : List Char) :
    parse_hex_line cfg st line ≠ Outcome.undef Fault.fuel := by
  have hb : ∀ (ptr : List Char) (len addr code : Int),
      parseBody cfg st ptr len addr code ≠ Outcome.undef Fault.fuel := by
    intro ptr len addr code
    unfold parseBody
    split_ifs
    · simp
    · simp
    · exact extRecord_fuel _ _ _ _
    · exact extRecord_fuel _ _ _ _
    · simp
    · exact dataLoop_fuel addr len 257 _ ptr _ 0 (le_refl _) (by norm_num) (by norm_num)
  unfold parse_hex_line
  cases line with
  | nil => simp
  | cons c0 p1 =>
    dsimp only
    split_ifs
    · simp
    · simp
    · split
      · simp
      · simp
      · split_ifs
        · simp
        · split
          · simp
          · simp
          · split
            · simp
            · simp
            · exact hb _ _ _ _

theorem dataLoop_frame (addr len : Int) :
    ∀ (fuel : Nat) (st : ParserState) (ptr : List Char) (sum num r : Int) (s1 : ParserState),
      0 ≤ num → num < 256 → (0 ≤ len → num ≤ len) →
      dataLoop addr len fuel st ptr sum num = Outcome.ret r s1 →
      s1.extended_addr = st.extended_addr ∧ s1.end_record_seen = st.end_record_seen ∧
      s1.byte_count = st.byte_count ∧ (r = 0 ∨ (r = 1 ∧ 0 ≤ len)) ∧
      ∀ a, Changed st s1 a →
        ∃ k : Nat, num ≤ k ∧ k < 256 ∧ (0 ≤ len → (k : Int) < len) ∧
          a = toU32 (addr + st.extended_addr + k) ∧ a < MAX_MEMORY_SIZE := by
  intro fuel
  induction fuel with
  | zero => intro st ptr sum num r s1 _ _ _ h; simp [dataLoop] at h
  | succ f ih =>
    intro st ptr sum num r s1 h0 h256 hle h
    unfold dataLoop at h
    by_cases hnl : num = len
    · simp only [hnl, ne_eq, not_true_eq_false, if_false] at h
      have hst : (r = 0 ∨ r = 1) ∧ s1 = st := by
        split at h
        · simp only [Outcome.ret.injEq] at h; exact ⟨Or.inl h.1.symm, h.2.symm⟩
        · simp at h
        · split at h <;> simp only [Outcome.ret.injEq] at h
          · exact ⟨Or.inr h.1.symm, h.2.symm⟩
          · exact ⟨Or.inl h.1.symm, h.2.symm⟩
      obtain ⟨hr, rfl⟩ := hst
      refine ⟨rfl, rfl, rfl, ?_, ?_⟩
      · rcases hr with hr | hr
        · exact Or.inl hr
        · exact Or.inr ⟨hr, by omega⟩
      · intro a ha; simp [Changed] at ha
    · simp only [ne_eq, hnl, not_false_eq_true, if_true] at h
      split at h
      · rename_i i0 hscan
        split_ifs at h with hoob h256b hstray
        · simp only [Outcome.ret.injEq] at h
          obtain ⟨hr, rfl⟩ := h
          refine ⟨rfl, rfl, rfl, Or.inl hr.symm, ?_⟩
          intro a ha
          refine ⟨num.toNat, by omega, by omega, by intro hl; have := hle hl; omega, ?_⟩
          have hk : ((num.toNat : Nat) : Int) = num := Int.toNat_of_nonneg h0
          rw [hk]
          have : a = toU32 (addr + st.extended_addr + num) := by
            by_contra hne
            simp [Changed, storeByte, hne] at ha
          exact ⟨this, by rw [this]; omega⟩
        · obtain ⟨e1, e2, e3, e4, e5⟩ := ih _ _ _ _ _ _ (by omega) (by omega)
            (by intro hl; have := hle hl; omega) h
          refine ⟨by simpa [storeByte] using e1, by simpa [storeByte] using e2,
            by simpa [storeByte] using e3, e4, ?_⟩
          intro a ha
          by_cases hat : a = toU32 (addr + st.extended_addr + num)
          · refine ⟨num.toNat, by omega, by omega, by intro hl; have := hle hl; omega, ?_⟩
            have hk : ((num.toNat : Nat) : Int) = num := Int.toNat_of_nonneg h0
            rw [hk]
            exact ⟨hat, by rw [hat]; omega⟩
          · have hc : Changed (storeByte st (toU32 (addr + st.extended_addr + num))
                (i0 % 256).toNat) s1 a := by
              simpa [Changed, storeByte, hat] using ha
            obtain ⟨k, k1, k2, k3, k4, k5⟩ := e5 a hc
            exact ⟨k, by omega, k2, k3, by simpa [storeByte] using k4, k5⟩
      · simp only [Outcome.ret.injEq] at h
        obtain ⟨hr, rfl⟩ := h
        refine ⟨rfl, rfl, rfl, Or.inl hr.symm, ?_⟩
        intro a ha; simp [Changed] at ha

theorem extRecord_frame (st : ParserState) (ptr : List Char) (sum : Int) (mk : Int → Nat)
    (r : Int) (s1 : ParserState) (h : extRecord st ptr sum mk = Outcome.ret r s1) :
    r = 1 ∧ s1.firmware_image = st.firmware_image ∧ s1.firmware_mask = st.firmware_mask ∧
      s1.end_record_seen = st.end_record_seen ∧ s1.byte_count = st.byte_count := by
  unfold extRecord at h
  split at h
  · simp only [Outcome.ret.injEq] at h; obtain ⟨hr, rfl⟩ := h; exact ⟨hr.symm, rfl, rfl, rfl, rfl⟩
  · simp at h
  · split at h
    · simp only [Outcome.ret.injEq] at h; obtain ⟨hr, rfl⟩ := h
      exact ⟨hr.symm, rfl, rfl, rfl, rfl⟩
    · simp at h
    · split at h <;> simp only [Outcome.ret.injEq] at h <;> obtain ⟨hr, rfl⟩ := h <;>
        exact ⟨hr.symm, rfl, rfl, rfl, rfl⟩

theorem getLoop_getElem (st : ParserState) :
    ∀ (n addr i : Nat), i < n →
      (getLoop st addr n)[i]? =
        some (if st.firmware_mask (addr + i) ≠ 0 then st.firmware_image (addr + i) else 255) := by
  intro n
  induction n with
  | zero => intro addr i hi; omega
  | succ n ih =>
    intro addr i hi
    cases i with
    | zero => simp [getLoop]
    | succ i =>
      simp only [getLoop, List.getElem?_cons_succ]
      rw [ih (addr + 1) i (by omega)]
      have : addr + 1 + i = addr + (i + 1) := by omega
      rw [this]

theorem getLoop_length (st : ParserState) :
    ∀ (n addr : Nat), (getLoop st addr n).length = n := by
  intro n
  induction n with
  | zero => intro addr; rfl
  | succ n ih => intro addr; simp [getLoop, ih]

theorem ihex_get_data_length (st : ParserState) (addr len : Int) (data : List Nat)
    (h : ihex_get_data st addr len = some data) : data.length = len.toNat := by
  unfold ihex_get_data at h
  split_ifs at h <;> simp only [Option.some.injEq] at h <;> rw [← h] <;>
    simp [getLoop_length]

theorem rangeLoop_spec (mask : Nat → Nat) :
    ∀ (n i : Nat), (rangeLoop mask i n = 1 ↔ ∃ j, i ≤ j ∧ j < i + n ∧ mask j ≠ 0) ∧
      (rangeLoop mask i n = 0 ∨ rangeLoop mask i n = 1) := by
  intro n
  induction n with
  | zero =>
    intro i
    refine ⟨⟨fun h => by simp [rangeLoop] at h, fun ⟨j, h1, h2, _⟩ => by omega⟩, Or.inl rfl⟩
  | succ n ih =>
    intro i
    unfold rangeLoop
    by_cases hm : mask i ≠ 0
    · rw [if_pos hm]
      exact ⟨⟨fun _ => ⟨i, le_refl _, by omega, hm⟩, fun _ => rfl⟩, Or.inr rfl⟩
    · rw [if_neg hm]
      obtain ⟨h1, h2⟩ := ih (i + 1)
      refine ⟨?_, h2⟩
      rw [h1]
      constructor
      · rintro ⟨j, a, b, c⟩
        exact ⟨j, by omega, by omega, c⟩
      · rintro ⟨j, a, b, c⟩
        have : j ≠ i := fun h => hm (h ▸ c)
        exact ⟨j, by omega, by omega, c⟩

/-- C6: `ihex_bytes_within_range(begin, end)` returns 1 exactly when both
endpoints lie in `[0, MAX_MEMORY_SIZE)` and some index `i` with
`begin <= i <= end` has a non-zero `firmware_mask[i]`; every other call
returns 0. -/
theorem C6_bytes_within_range_iff (st : ParserState) (begin_addr end_addr : Int) :
    (ihex_bytes_within_range st begin_addr end_addr = 1 ↔
      (0 ≤ begin_addr ∧ begin_addr < MAX_MEMORY_SIZE ∧ 0 ≤ end_addr ∧
        end_addr < MAX_MEMORY_SIZE ∧
        ∃ i : Nat, begin_addr ≤ i ∧ (i : Int) ≤ end_addr ∧ st.firmware_mask i ≠ 0)) ∧
    (ihex_bytes_within_range st begin_addr end_addr = 0 ∨
      ihex_bytes_within_range st begin_addr end_addr = 1) := by
  unfold ihex_bytes_within_range
  by_cases hg : begin_addr < 0 ∨ begin_addr ≥ MAX_MEMORY_SIZE ∨
      end_addr < 0 ∨ end_addr ≥ MAX_MEMORY_SIZE
  · rw [if_pos hg]
    refine ⟨⟨fun h => by simp at h, fun ⟨a, b, c, d, _⟩ => by omega⟩, Or.inl rfl⟩
  · rw [if_neg hg]
    obtain ⟨h1, h2⟩ := rangeLoop_spec st.firmware_mask (end_addr + 1 - begin_addr).toNat
      begin_addr.toNat
    refine ⟨?_, h2⟩
    rw [h1]
    constructor
    · rintro ⟨j, a, b, c⟩
      exact ⟨by omega, by omega, by omega, by omega, j, by omega, by omega, c⟩
    · rintro ⟨_, _, _, _, j, a, b, c⟩
      exact ⟨j, by omega, by omega, c⟩

/-- C7 (counterexample): after loading `:0200000400FFFB` and
`:01FFFE00AA58` the byte `0xAA` is stored and masked at index `0xFFFFFE`.
The read of the two bytes `[0xFFFFFE, 0x1000000)`, which lies within
`[0, MAX_MEMORY_SIZE)`, is answered with `0xFF 0xFF`, because the guard
`addr + len >= MAX_MEMORY_SIZE` holds; the read of `[0xFFFFFD, 0xFFFFFF)`
returns the stored byte. -/
theorem C7_read_ending_at_bound_is_blank :
    (read_intel_hex cfg0 resetState
        (some [":0200000400FFFB".toList, ":01FFFE00AA58".toList])).state.map
      (fun s => (s.firmware_mask 0xFFFFFE, s.firmware_image 0xFFFFFE,
        ihex_get_data s 0xFFFFFE 2, ihex_get_data s 0xFFFFFD 2)) =
      some (1, 0xAA, some [0xFF, 0xFF], some [0xFF, 0xAA]) ∧
    (0xFFFFFE : Int) + 2 ≤ MAX_MEMORY_SIZE := by
  decide

/-- C7 (amended): for `addr >= 0` and `len >= 0` with `addr + len` below
`MAX_MEMORY_SIZE`, `ihex_get_data(addr, len, bytes)` fills exactly `len`
bytes, and `bytes[i]` is `firmware_image[addr + i]` when
`firmware_mask[addr + i]` is set and `0xFF` otherwise; for `addr < 0`, for
`len < 0`, and for `addr + len >= MAX_MEMORY_SIZE` (a read that ends at the
bound or lies beyond it, the sum being an `int`) it fills all `len` bytes
with `0xFF`. -/
theorem C7_read_below_bound_or_blank (st : ParserState) (addr len : Int) :
    (0 ≤ addr → 0 ≤ len → addr + len < MAX_MEMORY_SIZE →
      ∃ bytes, ihex_get_data st addr len = some bytes ∧ (bytes.length : Int) = len ∧
        ∀ i : Nat, (i : Int) < len →
          bytes[i]? = some (if st.firmware_mask (addr.toNat + i) ≠ 0
            then st.firmware_image (addr.toNat + i) else 255)) ∧
    ((addr < 0 ∨ len < 0 ∨
        ((MAX_MEMORY_SIZE : Int) ≤ addr + len ∧ addr + len ≤ 2147483647)) →
      ihex_get_data st addr len = some (List.replicate len.toNat 255)) := by
  have hM : MAX_MEMORY_SIZE = 16777216 := rfl
  constructor
  · intro h1 h2 h3
    refine ⟨getLoop st addr.toNat len.toNat, ?_, ?_, ?_⟩
    · unfold ihex_get_data
      rw [if_neg (by omega), if_neg (by omega), if_neg (by omega)]
    · rw [getLoop_length]
      omega
    · intro i hi
      exact getLoop_getElem st _ _ _ (by omega)
  · intro h
    unfold ihex_get_data
    by_cases g : addr < 0 ∨ len < 0
    · rw [if_pos g]
    · rw [if_neg g, if_neg (by omega), if_pos (by omega)]

/-- Witness of C7 (amended): with `0xAA` stored at index `0xFFFFFD`, the read
of `[0xFFFFFD, 0xFFFFFF)` gives the stored byte and a blank byte; the read of
`[0xFFFFFE, 0x1000000)` ends at the bound and is all `0xFF`. -/
theorem C7_read_below_bound_or_blank_witness :
    (∃ bytes, ihex_get_data (storeByte resetState 0xFFFFFD 0xAA) 0xFFFFFD 2 = some bytes ∧
      (bytes.length : Int) = 2 ∧
      ∀ i : Nat, (i : Int) < 2 →
        bytes[i]? = some (if (storeByte resetState 0xFFFFFD 0xAA).firmware_mask
            ((0xFFFFFD : Int).toNat + i) ≠ 0
          then (storeByte resetState 0xFFFFFD 0xAA).firmware_image
            ((0xFFFFFD : Int).toNat + i) else 255)) ∧
    ihex_get_data (storeByte resetState 0xFFFFFE 0xAA) 0xFFFFFE 2 =
      some (List.replicate (2 : Int).toNat 255) :=
  ⟨(C7_read_below_bound_or_blank (storeByte resetState 0xFFFFFD 0xAA) 0xFFFFFD 2).1
      (by decide) (by decide) (by decide),
    (C7_read_below_bound_or_blank (storeByte resetState 0xFFFFFE 0xAA) 0xFFFFFE 2).2
      (Or.inr (Or.inr ⟨by decide, by decide⟩))⟩

theorem blankLoop_spec (st : ParserState) :
    ∀ (left addr : Nat) (bs : Int), addr + left = MAX_MEMORY_SIZE → 0 ≤ bs →
      (blankLoop st left addr bs = 1 ↔
        ∀ a : Nat, addr ≤ a → (a : Int) < addr + bs → a < MAX_MEMORY_SIZE →
          st.firmware_mask a ≠ 0 → st.firmware_image a = 255) ∧
      (blankLoop st left addr bs = 0 ∨ blankLoop st left addr bs = 1) := by
  intro left
  induction left with
  | zero =>
    intro addr bs ha _
    refine ⟨⟨fun _ a h1 _ h3 => by omega, fun _ => rfl⟩, Or.inr rfl⟩
  | succ left ih =>
    intro addr bs ha hbs
    unfold blankLoop
    by_cases hc : bs ≠ 0 ∧ addr < MAX_MEMORY_SIZE
    · rw [if_pos hc]
      by_cases hb : st.firmware_mask addr ≠ 0 ∧ st.firmware_image addr ≠ 255
      · rw [if_pos hb]
        refine ⟨⟨fun h => by simp at h, fun h => ?_⟩, Or.inl rfl⟩
        exact absurd (h addr (le_refl _) (by omega) hc.2 hb.1) hb.2
      · rw [if_neg hb]
        obtain ⟨h1, h2⟩ := ih (addr + 1) (bs - 1) (by omega) (by omega)
        refine ⟨?_, h2⟩
        rw [h1]
        constructor
        · intro h a a1 a2 a3 a4
          by_cases hae : a = addr
          · subst hae
            by_contra hne
            exact hb ⟨a4, hne⟩
          · exact h a (by omega) (by push_cast; omega) a3 a4
        · intro h a a1 a2 a3 a4
          exact h a (by omega) (by push_cast at a2; omega) a3 a4
    · rw [if_neg hc]
      refine ⟨⟨fun _ a a1 a2 a3 _ => ?_, fun _ => rfl⟩, Or.inr rfl⟩
      omega

/-- C8: for `addr` in `[0, MAX_MEMORY_SIZE)` and `block_size >= 0`,
`memory_is_blank(addr, block_size)` returns 1 exactly when every index of
`[addr, addr + block_size)` that is below `MAX_MEMORY_SIZE` and masked holds
`0xFF`, and returns 0 otherwise. -/
theorem C8_memory_is_blank_iff (st : ParserState) (addr block_size : Int)
    (h0 : 0 ≤ addr) (h1 : addr < MAX_MEMORY_SIZE) (hl : 0 ≤ block_size) :
    (memory_is_blank st addr block_size = 1 ↔
      ∀ a : Nat, addr ≤ a → (a : Int) < addr + block_size → a < MAX_MEMORY_SIZE →
        st.firmware_mask a ≠ 0 → st.firmware_image a = 255) ∧
    (memory_is_blank st addr block_size = 0 ∨ memory_is_blank st addr block_size = 1) := by
  unfold memory_is_blank
  rw [if_neg (by omega)]
  obtain ⟨e1, e2⟩ := blankLoop_spec st (MAX_MEMORY_SIZE - addr.toNat) addr.toNat block_size
    (by omega) hl
  refine ⟨?_, e2⟩
  rw [e1]
  constructor
  · intro h a a1 a2 a3 a4
    exact h a (by omega) (by omega) a3 a4
  · intro h a a1 a2 a3 a4
    exact h a (by omega) (by omega) a3 a4

/-- Witness of C8: the block `[0, 128)` of the reset image. -/
theorem C8_memory_is_blank_iff_witness :
    (memory_is_blank resetState 0 128 = 1 ↔
      ∀ a : Nat, (0 : Int) ≤ a → (a : Int) < 0 + 128 → a < MAX_MEMORY_SIZE →
        resetState.firmware_mask a ≠ 0 → resetState.firmware_image a = 255) ∧
    (memory_is_blank resetState 0 128 = 0 ∨ memory_is_blank resetState 0 128 = 1) :=
  C8_memory_is_blank_iff resetState 0 128 (by decide) (by decide) (by decide)

/-! ## The programming loop -/

/-- With a positive `block_size` the iteration bound of the programming loop
is never exhausted, whatever the transport answers. -/
theorem programLoop_fuel (cfg : Config) (st : ParserState) (tw : Nat → Bool)
    (hbs : 0 < cfg.block_size) :
    ∀ (fuel : Nat) (addr : Int) (first : Bool) (ws : Int) (k : Nat),
      0 < fuel → cfg.code_size < addr + fuel →
      (programLoop cfg st tw fuel addr first ws k).2 ≠ Stop.fuel := by
  intro fuel
  induction fuel with
  | zero => intro addr first ws k h; omega
  | succ f ih =>
    intro addr first ws k _ hf
    unfold programLoop
    by_cases h1 : ¬ addr < cfg.code_size
    · rw [if_pos h1]; simp
    rw [if_neg h1]
    have hrec : ∀ (b : Bool) (w : Int) (n : Nat),
        (programLoop cfg st tw f (addr + cfg.block_size) b w n).2 ≠ Stop.fuel := by
      intro b w n
      exact ih _ _ _ _ (by push_cast at hf; omega) (by push_cast at hf; omega)
    by_cases h2 : 2147483647 < addr + cfg.block_size ∨ addr + cfg.block_size < -2147483648 ∨
        (first = false ∧ addr + cfg.block_size - 1 < -2147483648)
    · rw [if_pos h2]; simp
    rw [if_neg h2]
    by_cases h3 : first = false ∧
        ihex_bytes_within_range st addr (addr + cfg.block_size - 1) = 0
    · rw [if_pos h3]; exact hrec _ _ _
    rw [if_neg h3]
    by_cases h4 : first = false ∧ memory_is_blank st addr cfg.block_size ≠ 0
    · rw [if_pos h4]; exact hrec _ _ _
    rw [if_neg h4]
    cases hv : headerVariant cfg.block_size cfg.code_size with
    | none => simp
    | some v =>
      cases hd : ihex_get_data st addr cfg.block_size with
      | none => simp
      | some data =>
        simp only
        by_cases hok : tw k = false
        · rw [if_pos hok]; simp
        · rw [if_neg hok]; exact hrec _ _ _

theorem programLoop_all_ok (cfg : Config) (st : ParserState) (v : HeaderVariant)
    (hbs : 0 < cfg.block_size)
    (hsup : headerVariant cfg.block_size cfg.code_size = some v)
    (hov : cfg.code_size + cfg.block_size ≤ 2147483648) :
    ∀ (fuel j : Nat) (ws : Int) (k : Nat), 0 < fuel → cfg.code_size.toNat < j + fuel →
      (∃ ws1, (programLoop cfg st (fun _ => true) fuel ((j : Int) * cfg.block_size)
          (decide (j = 0)) ws k).2 = Stop.finished ws1) ∧
      (programLoop cfg st (fun _ => true) fuel ((j : Int) * cfg.block_size)
          (decide (j = 0)) ws k).1.map (fun w => w.addr) =
        ((List.range' j (cfg.code_size.toNat - j)).map
          (fun i : Nat => (i : Int) * cfg.block_size)).filter
          (fun a => decide (a < cfg.code_size ∧ (a = 0 ∨
            (ihex_bytes_within_range st a (a + cfg.block_size - 1) ≠ 0 ∧
              memory_is_blank st a cfg.block_size = 0)))) := by
  intro fuel
  induction fuel with
  | zero => intro j ws k hf; omega
  | succ f ih =>
    intro j ws k _ hf
    have hmul : (0 : Int) ≤ (j : Int) * cfg.block_size :=
      Int.mul_nonneg (Int.ofNat_nonneg j) (le_of_lt hbs)
    have hjle : (j : Int) ≤ (j : Int) * cfg.block_size := by nlinarith
    unfold programLoop
    by_cases hlt : (j : Int) * cfg.block_size < cfg.code_size
    · have hjn : j < cfg.code_size.toNat := by omega
      have hnext : ((j : Int) * cfg.block_size + cfg.block_size) =
          ((j + 1 : Nat) : Int) * cfg.block_size := by push_cast; ring
      have hr : List.range' j (cfg.code_size.toNat - j) =
          j :: List.range' (j + 1) (cfg.code_size.toNat - (j + 1)) := by
        have : cfg.code_size.toNat - j = (cfg.code_size.toNat - (j + 1)) + 1 := by omega
        rw [this, List.range'_succ]
      have hd : decide (j + 1 = 0) = false := by simp
      obtain ⟨ihs, ihl⟩ := ih (j + 1) ws k (by omega) (by omega)
      rw [hd] at ihs ihl
      rw [if_neg (by simpa using hlt), if_neg (by omega), hr, List.map_cons]
      by_cases hj0 : j = 0
      · subst hj0
        have hw : ∃ data, ihex_get_data st ((0 : Nat) * cfg.block_size) cfg.block_size =
            some data := by
          unfold ihex_get_data
          split_ifs <;> first | exact ⟨_, rfl⟩ | omega
        obtain ⟨data, hdata⟩ := hw
        simp only [decide_True, Bool.true_eq_false, false_and, if_false, hsup, hdata]
        obtain ⟨ihs2, ihl2⟩ := ih 1 (writeSize v cfg.block_size) (k + 1) (by omega) (by omega)
        simp only [Nat.cast_zero, zero_mul, zero_add, Nat.cast_one, one_mul] at ihs2 ihl2 ⊢
        simp only [hd, Nat.reduceAdd] at ihs2 ihl2
        rw [List.filter_cons_of_pos (by simpa using hlt)]
        refine ⟨ihs2, ?_⟩
        simp only [List.map_cons, ihl2]
      · have hjd : decide (j = 0) = false := by simp [hj0]
        have hapos : (j : Int) * cfg.block_size ≠ 0 := by
          have : (1 : Int) ≤ j := by omega
          nlinarith
        simp only [hjd, true_and]
        by_cases hw : ihex_bytes_within_range st ((j : Int) * cfg.block_size)
            ((j : Int) * cfg.block_size + cfg.block_size - 1) = 0
        · rw [if_pos hw, List.filter_cons_of_neg (by simp [hapos, hw]), hnext]
          exact ⟨ihs, ihl⟩
        · rw [if_neg hw]
          by_cases hb : memory_is_blank st ((j : Int) * cfg.block_size) cfg.block_size ≠ 0
          · rw [if_pos hb, List.filter_cons_of_neg (by simp [hapos, hb]), hnext]
            exact ⟨ihs, ihl⟩
          · rw [if_neg hb]
            have hb0 : memory_is_blank st ((j : Int) * cfg.block_size) cfg.block_size = 0 := by
              simpa using hb
            have hwd : ∃ data, ihex_get_data st ((j : Int) * cfg.block_size) cfg.block_size =
                some data := by
              unfold ihex_get_data
              split_ifs <;> first | exact ⟨_, rfl⟩ | omega
            obtain ⟨data, hdata⟩ := hwd
            obtain ⟨ihs2, ihl2⟩ := ih (j + 1) (writeSize v cfg.block_size) (k + 1)
              (by omega) (by omega)
            rw [hd] at ihs2 ihl2
            rw [List.filter_cons_of_pos (by simp [hlt, hw, hb0])]
            simp only [hsup, hdata, Bool.true_eq_false, if_false, hnext]
            refine ⟨ihs2, ?_⟩
            simp only [List.map_cons, ihl2]
    · rw [if_pos (by simpa using hlt)]
      refine ⟨⟨ws, rfl⟩, ?_⟩
      simp only [List.map_nil]
      symm
      rw [List.filter_eq_nil_iff]
      intro a ha
      simp only [List.mem_map, List.mem_range'_1] at ha
      obtain ⟨i, ⟨hi1, _⟩, rfl⟩ := ha
      have : (j : Int) * cfg.block_size ≤ (i : Int) * cfg.block_size := by
        have : (j : Int) ≤ i := by omega
        nlinarith
      simp only [decide_eq_true_eq, not_and]
      intro hh
      omega

/-- C9: for a positive `block_size` and a pair `(code_size, block_size)` that
selects a header variant (with `code_size + block_size` within `int`), when
every transport write succeeds the loop runs to its end and the block
addresses written are, in strictly increasing order, exactly the multiples
`a = k * block_size` with `a < code_size` such that `a = 0`, or
`ihex_bytes_within_range(a, a + block_size - 1)` is true and
`memory_is_blank(a, block_size)` is false. -/
theorem C9_block_addresses_written (cfg : Config) (st : ParserState)
    (hbs : 0 < cfg.block_size)
    (hsup : headerVariant cfg.block_size cfg.code_size ≠ none)
    (hov : cfg.code_size + cfg.block_size ≤ 2147483648) :
    (∃ ws, (program cfg st (fun _ => true)).2 = Stop.finished ws) ∧
    (program cfg st (fun _ => true)).1.map (fun w => w.addr) =
      ((List.range cfg.code_size.toNat).map
        (fun k : Nat => (k : Int) * cfg.block_size)).filter
        (fun a => decide (a < cfg.code_size ∧ (a = 0 ∨
          (ihex_bytes_within_range st a (a + cfg.block_size - 1) ≠ 0 ∧
            memory_is_blank st a cfg.block_size = 0)))) ∧
    List.Pairwise (fun a b : Int => a < b)
      ((program cfg st (fun _ => true)).1.map (fun w => w.addr)) := by
  obtain ⟨v, hv⟩ : ∃ v, headerVariant cfg.block_size cfg.code_size = some v := by
    cases hh : headerVariant cfg.block_size cfg.code_size with
    | none => exact absurd hh hsup
    | some v => exact ⟨v, rfl⟩
  obtain ⟨h1, h2⟩ := programLoop_all_ok cfg st v hbs hv hov (cfg.code_size.toNat + 1) 0
    (initialWriteSize cfg) 0 (by omega) (by omega)
  simp only [Nat.cast_zero, zero_mul, decide_True, Nat.sub_zero] at h1 h2
  rw [← List.range_eq_range'] at h2
  refine ⟨h1, h2, ?_⟩
  unfold program
  rw [h2]
  apply List.Pairwise.filter
  apply List.Pairwise.map _ _ (List.pairwise_lt_range _)
  intro a b hab
  have : (a : Int) < b := by exact_mod_cast hab
  nlinarith

/-- Witness of C9: an ATmega32U4 (`code_size` 32256, `block_size` 128) and the
image of the reset state. -/
theorem C9_block_addresses_written_witness :
    (∃ ws, (program cfg0 resetState (fun _ => true)).2 = Stop.finished ws) ∧
    (program cfg0 resetState (fun _ => true)).1.map (fun w => w.addr) =
      ((List.range cfg0.code_size.toNat).map
        (fun k : Nat => (k : Int) * cfg0.block_size)).filter
        (fun a => decide (a < cfg0.code_size ∧ (a = 0 ∨
          (ihex_bytes_within_range resetState a (a + cfg0.block_size - 1) ≠ 0 ∧
            memory_is_blank resetState a cfg0.block_size = 0)))) ∧
    List.Pairwise (fun a b : Int => a < b)
      ((program cfg0 resetState (fun _ => true)).1.map (fun w => w.addr)) :=
  C9_block_addresses_written cfg0 resetState (by decide) (by decide) (by decide)

theorem programLoop_blocks (cfg : Config) (st : ParserState) (tw : Nat → Bool) :
    ∀ (fuel : Nat) (addr : Int) (first : Bool) (ws : Int) (k : Nat),
      (∀ w ∈ (programLoop cfg st tw fuel addr first ws k).1,
        ∃ v, headerVariant cfg.block_size cfg.code_size = some v ∧
          w.len = writeSize v cfg.block_size ∧
          w.buf.take (headerBytes v w.addr).length = headerBytes v w.addr ∧
          (0 ≤ cfg.block_size → (w.buf.length : Int) = w.len)) ∧
      ((programLoop cfg st tw fuel addr first ws k).2 = Stop.die_unknown_size →
        headerVariant cfg.block_size cfg.code_size = none) := by
  intro fuel
  induction fuel with
  | zero => intro addr first ws k; simp [programLoop]
  | succ f ih =>
    intro addr first ws k
    unfold programLoop
    by_cases h1 : ¬ addr < cfg.code_size
    · rw [if_pos h1]; simp
    rw [if_neg h1]
    by_cases h2 : 2147483647 < addr + cfg.block_size ∨ addr + cfg.block_size < -2147483648 ∨
        (first = false ∧ addr + cfg.block_size - 1 < -2147483648)
    · rw [if_pos h2]; simp
    rw [if_neg h2]
    by_cases h3 : first = false ∧
        ihex_bytes_within_range st addr (addr + cfg.block_size - 1) = 0
    · rw [if_pos h3]; exact ih _ _ _ _
    rw [if_neg h3]
    by_cases h4 : first = false ∧ memory_is_blank st addr cfg.block_size ≠ 0
    · rw [if_pos h4]; exact ih _ _ _ _
    rw [if_neg h4]
    cases hv : headerVariant cfg.block_size cfg.code_size with
    | none => simp
    | some v =>
      cases hd : ihex_get_data st addr cfg.block_size with
      | none => simp
      | some data =>
        simp only
        have hwlen : 0 ≤ cfg.block_size →
            (((headerBytes v addr ++ data).length : Nat) : Int) = writeSize v cfg.block_size := by
          intro hbs
          have hlen := ihex_get_data_length st addr cfg.block_size data hd
          cases v <;> simp [headerBytes, writeSize, hlen] <;> omega
        by_cases hok : tw k = false
        · rw [if_pos hok]
          refine ⟨?_, by simp⟩
          intro w hw
          simp only [List.mem_singleton] at hw
          subst hw
          exact ⟨v, rfl, rfl, by simp, hwlen⟩
        · rw [if_neg hok]
          obtain ⟨i1, i2⟩ := ih (addr + cfg.block_size) false (writeSize v cfg.block_size) (k + 1)
          rw [hv] at i1 i2
          refine ⟨?_, i2⟩
          intro w hw
          simp only [List.mem_cons] at hw
          rcases hw with rfl | hw
          · exact ⟨v, rfl, rfl, by simp, hwlen⟩
          · exact i1 w hw

/-- C10: the branch of the `if` chain taken for a block depends only on
`(block_size, code_size)`: variant A (wire size `block_size + 2`) when
`block_size <= 256` and `code_size < 0x10000`, variant B (`block_size + 2`)
when `block_size == 256` and `code_size >= 0x10000`, variant C
(`block_size + 64`) when `block_size` is 512 or 1024, and the fatal
`Unknown code/block size` exactly otherwise; every block of a run is written
with the header and wire size of that variant, and the buffer has as many
bytes as the wire size. -/
theorem C10_header_variant_selection (cfg : Config) (st : ParserState) (tw : Nat → Bool)
    (hint : -2147483648 ≤ cfg.block_size ∧ cfg.block_size ≤ 2147483647) :
    ((headerVariant cfg.block_size cfg.code_size = some HeaderVariant.A ↔
        cfg.block_size ≤ 256 ∧ cfg.code_size < 0x10000) ∧
      (headerVariant cfg.block_size cfg.code_size = some HeaderVariant.B ↔
        cfg.block_size = 256 ∧ cfg.code_size ≥ 0x10000) ∧
      (headerVariant cfg.block_size cfg.code_size = some HeaderVariant.C ↔
        cfg.block_size = 512 ∨ cfg.block_size = 1024) ∧
      (headerVariant cfg.block_size cfg.code_size = none ↔
        ¬ (cfg.block_size ≤ 256 ∧ cfg.code_size < 0x10000) ∧
        ¬ (cfg.block_size = 256 ∧ cfg.code_size ≥ 0x10000) ∧
        ¬ (cfg.block_size = 512 ∨ cfg.block_size = 1024))) ∧
    (writeSize HeaderVariant.A cfg.block_size = cfg.block_size + 2 ∧
      writeSize HeaderVariant.B cfg.block_size = cfg.block_size + 2 ∧
      writeSize HeaderVariant.C cfg.block_size = cfg.block_size + 64) ∧
    (∀ w ∈ (program cfg st tw).1,
      ∃ v, headerVariant cfg.block_size cfg.code_size = some v ∧
        w.len = writeSize v cfg.block_size ∧
        w.buf.take (headerBytes v w.addr).length = headerBytes v w.addr ∧
        (0 ≤ cfg.block_size → (w.buf.length : Int) = w.len)) ∧
    ((program cfg st tw).2 = Stop.die_unknown_size →
      headerVariant cfg.block_size cfg.code_size = none) ∧
    (headerVariant cfg.block_size cfg.code_size = none → 0 < cfg.code_size →
      program cfg st tw = ([], Stop.die_unknown_size)) ∧
    (headerVariant 128 32256 = some HeaderVariant.A ∧ writeSize HeaderVariant.A 128 = 130 ∧
      headerVariant 1024 2031616 = some HeaderVariant.C ∧
      writeSize HeaderVariant.C 1024 = 1088 ∧
      headerVariant 256 0x10000 = some HeaderVariant.B) := by
  refine ⟨?_, ⟨rfl, rfl, rfl⟩, (programLoop_blocks cfg st tw _ _ _ _ _).1,
    (programLoop_blocks cfg st tw _ _ _ _ _).2, ?_, by decide⟩
  · unfold headerVariant
    refine ⟨?_, ?_, ?_, ?_⟩ <;> split_ifs <;> simp <;> omega
  · intro hn hcs
    unfold program
    obtain ⟨n, hn1⟩ : ∃ n, cfg.code_size.toNat + 1 = n + 1 := ⟨_, rfl⟩
    rw [hn1]
    unfold programLoop
    rw [if_neg (by simpa using hcs),
      if_neg (by simp only [Bool.true_eq_false, false_and, or_false]; omega)]
    simp [hn]

/-- Witness of C10: an ATmega32U4 (`code_size` 32256, `block_size` 128). -/
theorem C10_header_variant_selection_witness :
    headerVariant cfg0.block_size cfg0.code_size = some HeaderVariant.A ∧
    cfg0.block_size ≤ 256 ∧ cfg0.code_size < 0x10000 :=
  ⟨(C10_header_variant_selection cfg0 resetState (fun _ => true)
      (by decide)).1.1.2 (by decide), by decide, by decide⟩

/-! ## `boot` -/

theorem boot_eq (buf : List Nat) (m : Nat) (hcap : m + 3 ≤ buf.length) :
    boot buf ((m + 3 : Nat) : Int) =
      some { buf := 255 :: 255 :: 255 :: List.replicate m 0
             len := ((m + 3 : Nat) : Int), timeout_ms := 500 } := by
  unfold boot
  rw [if_neg (by omega)]
  simp only [Int.toNat_ofNat, memsetZero]
  have h1 : (List.replicate (m + 3) 0 ++ List.drop (m + 3) buf).drop 3 =
      List.replicate m 0 ++ List.drop (m + 3) buf := by
    rw [List.drop_append_of_le_length (by simp)]
    simp
  rw [h1]
  simp [List.take_append_eq_append_take]

/-- C11: for `write_size = N >= 3` (and a buffer that holds `N` bytes), the
buffer that `boot(buf, N)` passes to `teensy_write` has length `N`, its first
three bytes are `0xFF` and the other `N - 3` bytes are 0, whatever `buf` held
before; the timeout is 0.5 s. -/
theorem C11_boot_buffer (buf : List Nat) (N : Int) (h3 : 3 ≤ N)
    (hcap : N ≤ buf.length) :
    ∃ b, boot buf N = some b ∧ b.len = N ∧ b.timeout_ms = 500 ∧
      (b.buf.length : Int) = N ∧
      b.buf = [255, 255, 255] ++ List.replicate (N.toNat - 3) 0 ∧
      (∀ i : Nat, i < 3 → b.buf[i]? = some 255) ∧
      (∀ i : Nat, 3 ≤ i → (i : Int) < N → b.buf[i]? = some 0) := by
  obtain ⟨m, hm⟩ : ∃ m : Nat, N = ((m + 3 : Nat) : Int) := ⟨(N - 3).toNat, by omega⟩
  subst hm
  refine ⟨_, boot_eq buf m (by omega), rfl, rfl, ?_, ?_, ?_, ?_⟩
  · simp; omega
  · have h : (((m + 3 : Nat) : Int)).toNat - 3 = m := by omega
    rw [h]; rfl
  · intro i hi
    interval_cases i <;> simp
  · intro i h1 h2
    obtain ⟨j, rfl⟩ : ∃ j, i = j + 3 := ⟨i - 3, by omega⟩
    simp only [List.getElem?_cons_succ]
    rw [List.getElem?_replicate, if_pos (by omega)]

/-- Witness of C11: `boot` on a buffer of 2048 bytes `0xAB` with the wire size
130 of an ATmega32U4. -/
theorem C11_boot_buffer_witness :
    ∃ b, boot (List.replicate 2048 0xAB) 130 = some b ∧ b.len = 130 ∧ b.timeout_ms = 500 ∧
      (b.buf.length : Int) = 130 ∧
      b.buf = [255, 255, 255] ++ List.replicate ((130 : Int).toNat - 3) 0 ∧
      (∀ i : Nat, i < 3 → b.buf[i]? = some 255) ∧
      (∀ i : Nat, 3 ≤ i → (i : Int) < 130 → b.buf[i]? = some 0) :=
  C11_boot_buffer (List.replicate 2048 0xAB) 130 (by decide)
    (by rw [List.length_replicate]; decide)

/-! ## One data record, one block -/

theorem dataLoop_step (addr len : Int) (b : HexByte) (bs : List HexByte)
    (rest : List Char) (f : Nat) (st : ParserState) (sum num : Int)
    (hnl : num ≠ len) (hin : ¬ MAX_MEMORY_SIZE ≤ toU32 (addr + st.extended_addr + num))
    (h256 : num + 1 < 256) :
    dataLoop addr len (f + 1) st (dataChars (b :: bs) ++ rest) sum num =
      dataLoop addr len f (storeByte st (toU32 (addr + st.extended_addr + num)) b.val)
        (dataChars bs ++ rest) (sum + b.val) (num + 1) := by
  have hb := b.val_lt
  have hmod : ((b.val : Int) % 256) = b.val := by omega
  simp only [dataLoop, dataChars, List.cons_append, sscanf_x_two, hmod, ne_eq, hnl,
    not_false_eq_true, if_true, Int.toNat_ofNat, List.drop_succ_cons, List.drop_zero,
    List.length_cons]
  rw [if_neg hin, if_neg (by omega), if_neg (by omega)]

theorem dataLoop_hex_state (addr len : Int) (ck : HexByte) (tail : List Char) :
    ∀ (data : List HexByte) (fuel : Nat) (st : ParserState) (sum num : Int) (b : Nat),
      data.length < fuel → num + data.length = len → len < 256 → 0 ≤ num →
      (∀ j : Nat, j < data.length →
        toU32 (addr + st.extended_addr + (num + j)) = b + j) →
      b + data.length ≤ MAX_MEMORY_SIZE →
      ∃ s1, dataLoop addr len fuel st (dataChars data ++ ck.hi :: ck.lo :: tail) sum num =
          Outcome.ret (if cksumOk (sum + sumVals data) ck.val then 1 else 0) s1 ∧
        s1.extended_addr = st.extended_addr ∧ s1.byte_count = st.byte_count ∧
        s1.end_record_seen = st.end_record_seen ∧
        (∀ a, s1.firmware_mask a =
          if b ≤ a ∧ a < b + data.length then 1 else st.firmware_mask a) ∧
        (∀ a, s1.firmware_image a =
          if b ≤ a ∧ a < b + data.length then (data.map HexByte.val).getD (a - b) 0
          else st.firmware_image a) := by
  intro data
  induction data with
  | nil =>
    intro fuel st sum num b hf hn hl h0 _ _
    obtain ⟨s1, -, he⟩ := dataLoop_hex addr len ck tail [] fuel st sum num hf hn hl h0
      (by intro j hj; simp at hj)
    have hs : s1 = st := by
      obtain ⟨f, rfl⟩ : ∃ f, fuel = f + 1 := ⟨fuel - 1, by simp at hf; omega⟩
      have hnl : num = len := by simpa using hn
      simp only [dataLoop, dataChars, List.nil_append, sscanf_x_two, hnl, ne_eq,
        not_true_eq_false, if_false] at he
      split at he <;> simp only [Outcome.ret.injEq] at he <;> exact he.2.symm
    subst hs
    refine ⟨s1, he, rfl, rfl, rfl, ?_, ?_⟩ <;> intro a <;> rw [if_neg] <;>
      simp only [List.length_nil, add_zero] <;> omega
  | cons x xs ih =>
    intro fuel st sum num b hf hn hl h0 hidx hmax
    obtain ⟨f, rfl⟩ : ∃ f, fuel = f + 1 := ⟨fuel - 1, by simp at hf; omega⟩
    simp only [List.length_cons] at hf hn hidx hmax
    have hnl : num ≠ len := by push_cast at hn; omega
    have hi0 := hidx 0 (by omega)
    simp only [Nat.cast_zero, add_zero] at hi0
    rw [dataLoop_step addr len x xs _ f st sum num hnl (by rw [hi0]; omega)
      (by push_cast at hn; omega), hi0]
    obtain ⟨s1, he, e1, e2, e3, e4, e5⟩ := ih f (storeByte st b x.val) (sum + x.val) (num + 1)
      (b + 1) (by omega) (by push_cast at hn ⊢; omega) hl (by omega)
      (by
        intro j hj
        have := hidx (j + 1) (by omega)
        simp only [storeByte]
        rw [show addr + (st.extended_addr : Int) + (num + 1 + (j : Int)) =
          addr + st.extended_addr + (num + ((j + 1 : Nat) : Int)) by push_cast; ring, this]
        omega)
      (by omega)
    refine ⟨s1, ?_, by simpa [storeByte] using e1, by simpa [storeByte] using e2,
      by simpa [storeByte] using e3, ?_, ?_⟩
    · simp only [sumVals, ← add_assoc]
      exact he
    · intro a
      rw [e4 a]
      simp only [storeByte, List.length_cons]
      by_cases hab : a = b
      · subst hab
        rw [if_neg (by omega), if_pos rfl, if_pos (by omega)]
      · by_cases hr : b + 1 ≤ a ∧ a < b + 1 + xs.length
        · rw [if_pos hr, if_pos (by omega)]
        · rw [if_neg hr, if_neg hab, if_neg (by omega)]
    · intro a
      rw [e5 a]
      simp only [storeByte, List.length_cons, List.map_cons]
      by_cases hab : a = b
      · subst hab
        rw [if_neg (by omega), if_pos rfl, if_pos (by omega)]
        simp
      · by_cases hr : b + 1 ≤ a ∧ a < b + 1 + xs.length
        · rw [if_pos hr, if_pos (by omega)]
          obtain ⟨d, hd⟩ : ∃ d, a - b = d + 1 := ⟨a - b - 1, by omega⟩
          have hd2 : a - (b + 1) = d := by omega
          rw [hd, hd2]
          simp
        · rw [if_neg hr, if_neg hab, if_neg (by omega)]

theorem parse_record16 (cfg : Config) (data : List HexByte) (ck : HexByte)
    (tail : List Char) (hlen : data.length = 16)
    (hck : ((16 : Int) + sumVals data + ck.val) % 256 = 0) :
    ∃ s1, parse_hex_line cfg resetState
        (hexLine (HexByte.ofNat 16) (HexByte.ofNat 0) (HexByte.ofNat 0) (HexByte.ofNat 0)
          data ck tail) = Outcome.ret 1 s1 ∧
      s1.extended_addr = 0 ∧ s1.byte_count = 16 ∧ s1.end_record_seen = 0 ∧
      (∀ a, s1.firmware_mask a = if a < 16 then 1 else 0) ∧
      (∀ a, s1.firmware_image a =
        if a < 16 then (data.map HexByte.val).getD a 0 else 255) := by
  have h16 : (HexByte.ofNat 16).val = 16 := by decide
  have h0 : (HexByte.ofNat 0).val = 0 := by decide
  rw [parse_hexLine cfg resetState _ _ _ _ data ck tail (by rw [h16, hlen]), h16, h0]
  simp only [Nat.cast_zero, Nat.cast_ofNat, zero_mul, add_zero, parseBody_data]
  have hchk : ¬ toU32 (0 + (resetState.extended_addr : Int) + 16) ≥ MAX_MEMORY_SIZE := by
    decide
  rw [if_neg hchk]
  obtain ⟨s1, he, e1, e2, e3, e4, e5⟩ := dataLoop_hex_state 0 16 ck tail data 257
    { resetState with byte_count := wrapInt (resetState.byte_count + 16) }
    ((16 : Int) % 256 + 0 / 256 % 256 + 0 % 256 + 0 % 256) 0 0
    (by omega) (by rw [hlen]; norm_num) (by norm_num) (le_refl _)
    (by
      intro j hj
      have := toU32_small ((0 : Int) + (0 : Nat) + (0 + (j : Int))) (by omega) (by omega)
      simp only [resetState]
      omega)
    (by rw [hlen]; decide)
  have hok : cksumOk ((16 : Int) % 256 + 0 / 256 % 256 + 0 % 256 + 0 % 256 + sumVals data)
      ck.val = true := by
    rw [cksumOk_iff]
    omega
  rw [hok] at he
  refine ⟨s1, by simpa using he, by simpa [resetState] using e1, ?_, by simpa [resetState] using e3,
    ?_, ?_⟩
  · rw [e2]; decide
  · intro a
    rw [e4 a, hlen]
    simp [resetState]
  · intro a
    rw [e5 a, hlen]
    simp [resetState]

theorem parse_end_record (cfg : Config) (s1 : ParserState) (ckE : HexByte)
    (tail : List Char) (hext : s1.extended_addr = 0) :
    parse_hex_line cfg s1
        (hexLine (HexByte.ofNat 0) (HexByte.ofNat 0) (HexByte.ofNat 0) (HexByte.ofNat 1)
          [] ckE tail) = Outcome.ret 1 { s1 with end_record_seen := 1 } := by
  have h1 : (HexByte.ofNat 1).val = 1 := by decide
  have h0 : (HexByte.ofNat 0).val = 0 := by decide
  rw [parse_hexLine cfg s1 _ _ _ _ [] ckE tail (by rw [h0]; rfl), h1, h0]
  simp only [Nat.cast_zero, Nat.cast_one, zero_mul, add_zero, parseBody, hext]
  rw [if_neg (by decide)]
  simp

theorem getLoop_record16 (s : ParserState) (vals : List Nat) (hl : vals.length = 16)
    (hm : ∀ a, s.firmware_mask a = if a < 16 then 1 else 0)
    (hi : ∀ a, s.firmware_image a = if a < 16 then vals.getD a 0 else 255) :
    getLoop s 0 128 = vals ++ List.replicate 112 255 := by
  apply List.ext_getElem?
  intro i
  by_cases h128 : i < 128
  · rw [getLoop_getElem s 128 0 i h128, zero_add, hm i, hi i]
    by_cases h16 : i < 16
    · rw [if_pos h16, if_pos h16, if_pos (by decide),
        List.getElem?_append_left (by omega), List.getD_eq_getElem?_getD,
        List.getElem?_eq_getElem (by omega)]
      simp
    · rw [if_neg h16, if_neg (by decide),
        List.getElem?_append_right (by omega), List.getElem?_replicate, if_pos (by omega)]
  · rw [List.getElem?_eq_none (by rw [getLoop_length]; omega),
      List.getElem?_eq_none (by simp [hl]; omega)]

/-- C12: for all 16 data bytes `d`, the load of a correctly checksummed
16-byte data record at address 0 followed by an end-of-file record returns
16; programming that image with `block_size = 128` and `code_size = 128`
issues exactly one block write: 130 bytes, the header `00 00`, then `d`, then
112 bytes `0xFF`, with the 5 s timeout of the first block. -/
theorem C12_one_record_one_block (prev : ParserState) (data : List HexByte)
    (ck ckE : HexByte) (tail1 tail2 : List Char) (tw : Nat → Bool)
    (hlen : data.length = 16)
    (hck : ((16 : Int) + sumVals data + ck.val) % 256 = 0) :
    ∃ s, read_intel_hex cfgOneBlock prev
        (some [hexLine (HexByte.ofNat 16) (HexByte.ofNat 0) (HexByte.ofNat 0)
            (HexByte.ofNat 0) data ck tail1,
          hexLine (HexByte.ofNat 0) (HexByte.ofNat 0) (HexByte.ofNat 0) (HexByte.ofNat 1)
            [] ckE tail2]) = Outcome.ret 16 s ∧
      (program cfgOneBlock s tw).1 =
        [{ addr := 0
           buf := [0, 0] ++ (data.map HexByte.val ++ List.replicate 112 255)
           len := 130
           timeout_ms := 5000
           ok := tw 0 }] ∧
      ([0, 0] ++ (data.map HexByte.val ++ List.replicate 112 255)).length = 130 := by
  obtain ⟨s1, hp1, e1, e2, e3, e4, e5⟩ := parse_record16 cfgOneBlock data ck tail1 hlen hck
  have hp2 := parse_end_record cfgOneBlock s1 ckE tail2 e1
  refine ⟨{ s1 with end_record_seen := 1 }, ?_, ?_, by simp [hlen]⟩
  · unfold read_intel_hex
    simp only
    rw [readLoop, lineOutcome, if_pos (by simp [hexLine]), hp1]
    simp only
    rw [if_neg (by decide), if_neg (by rw [e3]; simp), readLoop, lineOutcome,
      if_pos (by simp [hexLine]), hp2]
    simp only
    rw [if_neg (by decide), if_pos (by simp), e2]
  · have hg := getLoop_record16 { s1 with end_record_seen := 1 } (data.map HexByte.val)
      (by simp [hlen]) e4 e5
    have hv : headerVariant cfgOneBlock.block_size cfgOneBlock.code_size =
        some HeaderVariant.A := by decide
    have hd : ihex_get_data { s1 with end_record_seen := 1 } 0 cfgOneBlock.block_size =
        some (data.map HexByte.val ++ List.replicate 112 255) := by
      unfold ihex_get_data
      rw [if_neg (by decide), if_neg (by decide), if_neg (by decide)]
      exact congrArg some hg
    have hfuel : cfgOneBlock.code_size.toNat + 1 = 127 + 1 + 1 := by decide
    unfold program
    rw [hfuel, programLoop, if_neg (by decide), if_neg (by decide), if_neg (by simp),
      if_neg (by simp)]
    simp only [hv, hd]
    have hstop : programLoop cfgOneBlock { s1 with end_record_seen := 1 } tw (127 + 1)
        (0 + cfgOneBlock.block_size) false (writeSize HeaderVariant.A cfgOneBlock.block_size)
        (0 + 1) = ([], Stop.finished (writeSize HeaderVariant.A cfgOneBlock.block_size)) := by
      rw [programLoop, if_pos (by decide)]
    by_cases hok : tw 0 = false
    · rw [if_pos hok]
      simp [headerBytes, writeSize, cfgOneBlock]
    · rw [if_neg hok, hstop]
      simp [headerBytes, writeSize, cfgOneBlock]

/-- Witness of C12: the record `:10000000` with the data bytes 00 to 0F and
the checksum `78`, followed by `:00000001FF`. -/
theorem C12_one_record_one_block_witness :
    ∃ s, read_intel_hex cfgOneBlock resetState
        (some [hexLine (HexByte.ofNat 16) (HexByte.ofNat 0) (HexByte.ofNat 0)
            (HexByte.ofNat 0) ((List.range 16).map HexByte.ofNat) (HexByte.ofNat 0x78) [],
          hexLine (HexByte.ofNat 0) (HexByte.ofNat 0) (HexByte.ofNat 0) (HexByte.ofNat 1)
            [] (HexByte.ofNat 0xFF) []]) = Outcome.ret 16 s ∧
      (program cfgOneBlock s (fun _ => true)).1 =
        [{ addr := 0
           buf := [0, 0] ++ (((List.range 16).map HexByte.ofNat).map HexByte.val ++
             List.replicate 112 255)
           len := 130
           timeout_ms := 5000
           ok := true }] ∧
      ([0, 0] ++ (((List.range 16).map HexByte.ofNat).map HexByte.val ++
        List.replicate 112 255)).length = 130 :=
  C12_one_record_one_block resetState ((List.range 16).map HexByte.ofNat)
    (HexByte.ofNat 0x78) (HexByte.ofNat 0xFF) [] [] (fun _ => true) (by decide) (by decide)

/-! ## End-of-file records -/

theorem lineFields_scans {c0 : Char} {p1 : List Char} {len addr code : Int}
    (h : lineFields (c0 :: p1) = some (len, addr, code)) :
    sscanf_x 2 p1 = Scan.ok len ∧ sscanf_x 4 (p1.drop 2) = Scan.ok addr ∧
      sscanf_x 2 (p1.drop 6) = Scan.ok code := by
  unfold lineFields at h
  simp only at h
  split at h
  · rename_i l a c h1 h2 h3
    simp only [Option.some.injEq, Prod.mk.injEq] at h
    obtain ⟨rfl, rfl, rfl⟩ := h
    exact ⟨h1, h2, h3⟩
  · simp at h

theorem parse_hex_line_of_fields (cfg : Config) (st : ParserState) (c0 : Char)
    (p1 : List Char) (len addr code : Int)
    (h : lineFields (c0 :: p1) = some (len, addr, code)) :
    parse_hex_line cfg st (c0 :: p1) =
      if c0.toNat ≠ 58 then Outcome.ret 0 st
      else if (c0 :: p1).length < 11 then Outcome.ret 0 st
      else if ((c0 :: p1).length : Int) < 11 + len * 2 then Outcome.ret 0 st
      else parseBody cfg st (p1.drop 8) len addr code := by
  obtain ⟨h1, h2, h3⟩ := lineFields_scans h
  unfold parse_hex_line
  simp only [h1, h2, h3]

theorem lineOutcome_eof (cfg : Config) (st : ParserState) (E : List Char) (len addr : Int)
    (hE : lineFields E = some (len, addr, 1)) :
    lineOutcome cfg st E = Outcome.ret 0 st ∨
      lineOutcome cfg st E = Outcome.ret 1 { st with end_record_seen := 1 } := by
  cases E with
  | nil => simp [lineFields] at hE
  | cons c0 p1 =>
    unfold lineOutcome
    rw [if_pos (by simp), parse_hex_line_of_fields cfg st c0 p1 len addr 1 hE]
    split_ifs
    · exact Or.inl rfl
    · exact Or.inl rfl
    · exact Or.inl rfl
    · unfold parseBody
      by_cases hchk : toU32 (addr + st.extended_addr + len) ≥ MAX_MEMORY_SIZE
      · rw [if_pos hchk]; exact Or.inl rfl
      · rw [if_neg hchk]; exact Or.inr (by simp)

theorem readLoop_stops_at_eof (cfg : Config) (E : List Char) (S : List (List Char))
    (len addr : Int) (hE : lineFields E = some (len, addr, 1)) :
    ∀ (P : List (List Char)) (st : ParserState),
      readLoop cfg st (P ++ E :: S) = readLoop cfg st (P ++ [E]) := by
  intro P
  induction P with
  | nil =>
    intro st
    simp only [List.nil_append]
    unfold readLoop
    rcases lineOutcome_eof cfg st E len addr hE with h | h <;> rw [h] <;> simp
  | cons buf more ih =>
    intro st
    simp only [List.cons_append]
    unfold readLoop
    cases hlo : lineOutcome cfg st buf with
    | undef f => rfl
    | ret r st1 =>
      simp only
      split_ifs
      · rfl
      · rfl
      · exact ih st1

/-- C13: when `E` is an end-of-file record (type 01), loading
`P ++ [E] ++ S` gives the same result as loading `P ++ [E]`, for all lines
`P` and `S`: the same return value, `firmware_image`, `firmware_mask`,
`extended_addr` and the other state variables; the lines of `S` are not
parsed. -/
theorem C13_load_stops_at_end_record (cfg : Config) (prev : ParserState)
    (P S : List (List Char)) (E : List Char) (len addr : Int)
    (hE : lineFields E = some (len, addr, 1)) :
    read_intel_hex cfg prev (some (P ++ [E] ++ S)) =
      read_intel_hex cfg prev (some (P ++ [E])) := by
  unfold read_intel_hex
  simp only [List.append_assoc, List.singleton_append]
  exact readLoop_stops_at_eof cfg E S len addr hE P resetState

/-- Witness of C13: the data record `:0100000000FF`, the end-of-file record
`:00000001FF` and a malformed line after it. -/
theorem C13_load_stops_at_end_record_witness :
    read_intel_hex cfg0 resetState
        (some ([":0100000000FF".toList] ++ [":00000001FF".toList] ++ ["garbage".toList])) =
      read_intel_hex cfg0 resetState
        (some ([":0100000000FF".toList] ++ [":00000001FF".toList])) ∧
    (read_intel_hex cfg0 resetState
        (some ([":0100000000FF".toList] ++ [":00000001FF".toList] ++
          ["garbage".toList]))).retval = some 1 :=
  ⟨C13_load_stops_at_end_record cfg0 resetState [":0100000000FF".toList] ["garbage".toList]
      ":00000001FF".toList 0 0 (by decide), by decide⟩

/-! ## The byte count of a load -/

theorem hexDigits_bound :
    ∀ (w : Nat) (cs : List Char) (acc n : Nat),
      (hexDigits w cs acc n).1 < (acc + 1) * 16 ^ w := by
  intro w
  induction w with
  | zero => intro cs acc n; simp [hexDigits]
  | succ w ih =>
    intro cs acc n
    cases cs with
    | nil =>
      simp only [hexDigits]
      have h1 : 1 ≤ 16 ^ (w + 1) := Nat.one_le_pow _ _ (by norm_num)
      nlinarith
    | cons c cs =>
      simp only [hexDigits]
      cases hd : hexDigitVal c with
      | none =>
        simp only
        have h1 : 1 ≤ 16 ^ (w + 1) := Nat.one_le_pow _ _ (by norm_num)
        nlinarith
      | some d =>
        simp only
        have hd16 : d < 16 := by
          unfold hexDigitVal at hd
          split_ifs at hd <;> simp at hd <;> omega
        have := ih cs (acc * 16 + d) (n + 1)
        calc (hexDigits w cs (acc * 16 + d) (n + 1)).1
            < (acc * 16 + d + 1) * 16 ^ w := this
          _ ≤ ((acc + 1) * 16) * 16 ^ w := Nat.mul_le_mul_right _ (by omega)
          _ = (acc + 1) * 16 ^ (w + 1) := by rw [pow_succ]; ring

theorem sscanf_x_two_le (s : List Char) (v : Int) (h : sscanf_x 2 s = Scan.ok v) :
    v ≤ 255 := by
  unfold sscanf_x at h
  split at h
  · simp at h
  · rename_i c cs _
    simp only at h
    have hw1 : (scanSign 2 (c :: cs)).2.1 ≤ 2 := by
      unfold scanSign
      simp only
      split_ifs <;> simp
    have hw2 : (scanBase (scanSign 2 (c :: cs)).2.1 (scanSign 2 (c :: cs)).2.2).1 ≤ 2 := by
      unfold scanBase
      split
      · split_ifs
        · simp only; omega
        · exact hw1
      · exact hw1
    have hb := hexDigits_bound (scanBase (scanSign 2 (c :: cs)).2.1 (scanSign 2 (c :: cs)).2.2).1
      (scanBase (scanSign 2 (c :: cs)).2.1 (scanSign 2 (c :: cs)).2.2).2 0 0
    have hpow : 16 ^ (scanBase (scanSign 2 (c :: cs)).2.1 (scanSign 2 (c :: cs)).2.2).1 ≤ 256 := by
      calc 16 ^ (scanBase (scanSign 2 (c :: cs)).2.1 (scanSign 2 (c :: cs)).2.2).1
          ≤ 16 ^ 2 := Nat.pow_le_pow_right (by norm_num) hw2
        _ = 256 := by norm_num
    simp only [zero_add, one_mul] at hb
    split_ifs at h <;> simp only [Scan.ok.injEq] at h <;> omega

theorem parseBody_accept (cfg : Config) (st : ParserState) (ptr : List Char)
    (len addr code r : Int) (s1 : ParserState)
    (h : parseBody cfg st ptr len addr code = Outcome.ret r s1) (hr : r ≠ 0) :
    (code = 0 → 0 ≤ len ∧ s1.byte_count = wrapInt (st.byte_count + len) ∧
      s1.end_record_seen = st.end_record_seen) ∧
    (code = 1 → s1.byte_count = st.byte_count ∧ s1.end_record_seen = 1) ∧
    (code ≠ 0 → code ≠ 1 → s1.byte_count = st.byte_count ∧
      s1.end_record_seen = st.end_record_seen) := by
  unfold parseBody at h
  split_ifs at h with hchk hcode h1 h2 h4
  · simp only [Outcome.ret.injEq] at h; exact absurd h.1.symm hr
  · simp only [Outcome.ret.injEq] at h; obtain ⟨-, rfl⟩ := h
    exact ⟨fun hc => absurd hc hcode, fun _ => ⟨rfl, rfl⟩, fun _ hc => absurd h1 hc⟩
  · obtain ⟨-, -, -, e1, e2⟩ := extRecord_frame _ _ _ _ _ _ h
    exact ⟨fun hc => absurd hc hcode, fun hc => absurd hc h1, fun _ _ => ⟨e2, e1⟩⟩
  · obtain ⟨-, -, -, e1, e2⟩ := extRecord_frame _ _ _ _ _ _ h
    exact ⟨fun hc => absurd hc hcode, fun hc => absurd hc h1, fun _ _ => ⟨e2, e1⟩⟩
  · simp only [Outcome.ret.injEq] at h; obtain ⟨-, rfl⟩ := h
    exact ⟨fun hc => absurd hc hcode, fun hc => absurd hc h1, fun _ _ => ⟨rfl, rfl⟩⟩
  · obtain ⟨-, e2, e3, e4, -⟩ := dataLoop_frame addr len 257 _ ptr _ 0 r s1 (le_refl _)
      (by norm_num) (fun hl => hl) h
    have hc0 : code = 0 := by simpa using hcode
    rcases e4 with e4 | e4
    · exact absurd e4 hr
    · exact ⟨fun _ => ⟨e4.2, e3, e2⟩, fun hc => by omega, fun hc => absurd hc0 hc⟩

theorem parse_hex_line_accept (cfg : Config) (st : ParserState) (line : List Char) (r : Int)
    (s1 : ParserState) (h : parse_hex_line cfg st line = Outcome.ret r s1) (hr : r ≠ 0) :
    ∃ len addr code : Int, lineFields line = some (len, addr, code) ∧ len ≤ 255 ∧
      (code = 0 → 0 ≤ len ∧ s1.byte_count = wrapInt (st.byte_count + len) ∧
        s1.end_record_seen = st.end_record_seen) ∧
      (code = 1 → s1.byte_count = st.byte_count ∧ s1.end_record_seen = 1) ∧
      (code ≠ 0 → code ≠ 1 → s1.byte_count = st.byte_count ∧
        s1.end_record_seen = st.end_record_seen) := by
  have hrej : ∀ s : ParserState, Outcome.ret 0 s = Outcome.ret r s1 → False := by
    intro s he
    simp only [Outcome.ret.injEq] at he
    exact hr he.1.symm
  unfold parse_hex_line at h
  cases line with
  | nil => exact (hrej _ h).elim
  | cons c0 p1 =>
    simp only at h
    split_ifs at h with hc hl
    · exact (hrej _ h).elim
    · exact (hrej _ h).elim
    · split at h
      · exact (hrej _ h).elim
      · simp at h
      · rename_i len hs1
        split_ifs at h with hl2
        · exact (hrej _ h).elim
        · split at h
          · exact (hrej _ h).elim
          · simp at h
          · rename_i addr hs2
            split at h
            · exact (hrej _ h).elim
            · simp at h
            · rename_i code hs3
              refine ⟨len, addr, code, by simp [lineFields, hs1, hs2, hs3],
                sscanf_x_two_le _ _ hs1, parseBody_accept cfg st _ len addr code r s1 h hr⟩

theorem wrapInt_small (x : Int) (h0 : 0 ≤ x) (h1 : x < 2147483648) : wrapInt x = x := by
  unfold wrapInt
  omega

theorem readLoop_byte_count (cfg : Config) :
    ∀ (lines : List (List Char)) (st : ParserState) (r : Int) (s1 : ParserState),
      readLoop cfg st lines = Outcome.ret r s1 → 0 ≤ r →
      st.end_record_seen = 0 → 0 ≤ st.byte_count →
      st.byte_count + 255 * (lines.length : Int) < 2147483648 →
      r = st.byte_count + lenSum lines := by
  intro lines
  induction lines with
  | nil =>
    intro st r s1 h _ _ _ _
    simp only [readLoop, Outcome.ret.injEq] at h
    simp [lenSum, h.1]
  | cons buf more ih =>
    intro st r s1 h hr0 he hb hbound
    simp only [List.length_cons, Nat.cast_add, Nat.cast_one] at hbound
    unfold readLoop at h
    cases hlo : lineOutcome cfg st buf with
    | undef f => rw [hlo] at h; simp at h
    | ret r1 st1 =>
      rw [hlo] at h
      simp only at h
      by_cases hr1 : r1 = 0
      · rw [if_pos hr1] at h
        simp only [Outcome.ret.injEq] at h
        omega
      rw [if_neg hr1] at h
      unfold lineOutcome at hlo
      by_cases hne : buf ≠ []
      · rw [if_pos hne] at hlo
        obtain ⟨len, addr, code, hf, hl255, hc0, hc1, hc2⟩ :=
          parse_hex_line_accept cfg st buf r1 st1 hlo hr1
        simp only [lenSum, hf]
        by_cases hcode0 : code = 0
        · obtain ⟨hl0, hbc, hers⟩ := hc0 hcode0
          rw [wrapInt_small _ (by omega) (by omega)] at hbc
          rw [if_neg (by rw [hers, he]; simp)] at h
          rw [if_pos hcode0]
          have := ih st1 r s1 h hr0 (by rw [hers, he]) (by omega) (by omega)
          omega
        · rw [if_neg hcode0]
          by_cases hcode1 : code = 1
          · obtain ⟨hbc, hers⟩ := hc1 hcode1
            rw [if_pos (by rw [hers]; simp)] at h
            simp only [Outcome.ret.injEq] at h
            rw [if_pos hcode1]
            omega
          · obtain ⟨hbc, hers⟩ := hc2 hcode0 hcode1
            rw [if_neg (by rw [hers, he]; simp)] at h
            rw [if_neg hcode1]
            have := ih st1 r s1 h hr0 (by rw [hers, he]) (by omega) (by omega)
            omega
      · rw [if_neg hne] at hlo
        simp only [Outcome.ret.injEq] at hlo
        obtain ⟨-, rfl⟩ := hlo
        have hnil : buf = [] := by simpa using hne
        subst hnil
        rw [if_neg (by rw [he]; simp)] at h
        simp only [lenSum, lineFields]
        have := ih st r s1 h hr0 he hb (by omega)
        omega

/-- C14: when the load succeeds (the return value is not negative), the value
returned by `read_intel_hex` is the sum of the length fields of the data
records (type 00) among the lines up to the first end-of-file record or the
end of the input, whatever state an earlier load left; the input has fewer
than `2^31 / 255` lines, so that the `int` counter does not overflow. -/
theorem C14_byte_count_is_sum_of_lengths (cfg : Config) (prev : ParserState)
    (lines : List (List Char)) (r : Int) (s1 : ParserState)
    (hbound : 255 * (lines.length : Int) < 2147483648)
    (h : read_intel_hex cfg prev (some lines) = Outcome.ret r s1) (hr : 0 ≤ r) :
    r = lenSum lines := by
  unfold read_intel_hex at h
  simp only at h
  have h1 := readLoop_byte_count cfg lines resetState r s1 h hr rfl (le_refl _)
    (by simpa [resetState] using hbound)
  simpa [resetState] using h1

/-- Witness of C14: the load of `:0100000000FF` and `:00000001FF` over the
state a load of another file left returns 1. -/
theorem C14_byte_count_is_sum_of_lengths_witness :
    (1 : Int) = lenSum [":0100000000FF".toList, ":00000001FF".toList] :=
  C14_byte_count_is_sum_of_lengths cfg0
    { storeByte resetState 9 7 with byte_count := 40 }
    [":0100000000FF".toList, ":00000001FF".toList] 1
    { storeByte { resetState with byte_count := 1 } 0 0 with end_record_seen := 1 }
    (by decide) rfl (by decide)

/-! ## A wrong checksum byte -/

theorem extRecord_hex_bad (st : ParserState) (vh vl ck : HexByte) (tail : List Char)
    (sum : Int) (mk : Int → Nat)
    (hck : cksumOk (sum + ((vh.val : Int) + vl.val)) ck.val = false) :
    extRecord st (vh.hi :: vh.lo :: vl.hi :: vl.lo :: ck.hi :: ck.lo :: tail) sum mk =
      Outcome.ret 1 st := by
  have b1 := vh.val_lt
  have b2 := vl.val_lt
  have hs : ((vh.val : Int) * 256 + vl.val) / 256 % 256 + ((vh.val : Int) * 256 + vl.val) % 256
      = (vh.val : Int) + vl.val := by omega
  simp only [extRecord, sscanf_x_four, List.drop_succ_cons, List.drop_zero, sscanf_x_two, hs,
    hck, Bool.false_eq_true, if_false]

theorem dataLoop_hex_total (addr len : Int) (ck : HexByte) (tail : List Char) :
    ∀ (data : List HexByte) (fuel : Nat) (st : ParserState) (sum num : Int),
      data.length < fuel → num + data.length = len → len < 256 → 0 ≤ num →
      (∃ s1, dataLoop addr len fuel st (dataChars data ++ ck.hi :: ck.lo :: tail) sum num =
          Outcome.ret (if cksumOk (sum + sumVals data) ck.val then 1 else 0) s1) ∨
      (∃ idx, MAX_MEMORY_SIZE ≤ idx ∧
        dataLoop addr len fuel st (dataChars data ++ ck.hi :: ck.lo :: tail) sum num =
          Outcome.undef (Fault.oob idx)) := by
  intro data
  induction data with
  | nil =>
    intro fuel st sum num hf hn hl h0
    obtain ⟨s1, -, he⟩ := dataLoop_hex addr len ck tail [] fuel st sum num hf hn hl h0
      (by intro j hj; simp at hj)
    exact Or.inl ⟨s1, he⟩
  | cons b bs ih =>
    intro fuel st sum num hf hn hl h0
    obtain ⟨f, rfl⟩ : ∃ f, fuel = f + 1 := ⟨fuel - 1, by simp at hf; omega⟩
    simp only [List.length_cons] at hf hn
    have hnl : num ≠ len := by push_cast at hn; omega
    have hb := b.val_lt
    have hmod : ((b.val : Int) % 256) = b.val := by omega
    by_cases hoob : MAX_MEMORY_SIZE ≤ toU32 (addr + st.extended_addr + num)
    · refine Or.inr ⟨_, hoob, ?_⟩
      simp only [dataLoop, dataChars, List.cons_append, sscanf_x_two, ne_eq, hnl,
        not_false_eq_true, if_true]
      rw [if_pos hoob]
    · have hstep : dataLoop addr len (f + 1) st
          (dataChars (b :: bs) ++ ck.hi :: ck.lo :: tail) sum num =
          dataLoop addr len f (storeByte st (toU32 (addr + st.extended_addr + num)) b.val)
            (dataChars bs ++ ck.hi :: ck.lo :: tail) (sum + b.val) (num + 1) := by
        simp only [dataLoop, dataChars, List.cons_append, sscanf_x_two, hmod, ne_eq, hnl,
          not_false_eq_true, if_true, Int.toNat_ofNat, List.drop_succ_cons, List.drop_zero,
          List.length_cons]
        rw [if_neg hoob, if_neg (by push_cast at hn; omega), if_neg (by omega)]
      rw [hstep]
      have := ih f (storeByte st (toU32 (addr + st.extended_addr + num)) b.val)
        (sum + b.val) (num + 1) (by omega) (by push_cast at hn ⊢; omega) hl (by omega)
      simp only [sumVals, ← add_assoc]
      exact this

theorem parse_data_line_total (cfg : Config) (st : ParserState) (len ah al code : HexByte)
    (data : List HexByte) (ck : HexByte) (tail : List Char)
    (hcode : code.val = 0) (hlen : data.length = len.val)
    (hbad : ((len.val : Int) + ah.val + al.val + sumVals data + ck.val) % 256 ≠ 0) :
    (∃ s1, parse_hex_line cfg st (hexLine len ah al code data ck tail) = Outcome.ret 0 s1) ∨
    (∃ idx, MAX_MEMORY_SIZE ≤ idx ∧
      parse_hex_line cfg st (hexLine len ah al code data ck tail) =
        Outcome.undef (Fault.oob idx)) := by
  have hl := len.val_lt
  obtain ⟨e1, e2⟩ := addr_hi_lo ah.val al.val ah.val_lt al.val_lt
  rw [parse_hexLine cfg st len ah al code data ck tail hlen, hcode]
  simp only [Nat.cast_zero, parseBody_data]
  split_ifs with hchk
  · exact Or.inl ⟨st, rfl⟩
  · have hno : cksumOk ((len.val : Int) % 256 + ((ah.val : Int) * 256 + al.val) / 256 % 256 +
        ((ah.val : Int) * 256 + al.val) % 256 + 0 % 256 + sumVals data) ck.val = false := by
      rw [Bool.eq_false_iff, ne_eq, cksumOk_iff, e1, e2]
      intro h
      apply hbad
      have hm : (len.val : Int) % 256 = len.val := by omega
      rw [hm] at h
      simpa using h
    rcases dataLoop_hex_total ((ah.val : Int) * 256 + al.val) len.val ck tail data 257
      { st with byte_count := wrapInt (st.byte_count + len.val) }
      ((len.val : Int) % 256 + ((ah.val : Int) * 256 + al.val) / 256 % 256 +
        ((ah.val : Int) * 256 + al.val) % 256 + 0 % 256) 0
      (by omega) (by simp [hlen]) (by omega) (le_refl _) with ⟨s1, he⟩ | ⟨idx, hi, he⟩
    · rw [hno] at he
      exact Or.inl ⟨s1, by simpa using he⟩
    · exact Or.inr ⟨idx, hi, he⟩

theorem parse_data_line_nowrap (cfg : Config) (st : ParserState) (len ah al code : HexByte)
    (data : List HexByte) (ck : HexByte) (tail : List Char)
    (hcode : code.val = 0) (hlen : data.length = len.val)
    (hnw : ah.val * 256 + al.val + st.extended_addr + len.val < 4294967296)
    (hbad : ((len.val : Int) + ah.val + al.val + sumVals data + ck.val) % 256 ≠ 0) :
    ∃ s1, parse_hex_line cfg st (hexLine len ah al code data ck tail) = Outcome.ret 0 s1 := by
  rcases parse_data_line_total cfg st len ah al code data ck tail hcode hlen hbad with
    h | ⟨idx, hi, he⟩
  · exact h
  · exfalso
    have hl := len.val_lt
    rw [parse_hexLine cfg st len ah al code data ck tail hlen, hcode] at he
    simp only [Nat.cast_zero, parseBody_data] at he
    have hu : (toU32 ((ah.val : Int) * 256 + al.val + st.extended_addr + len.val) : Int) =
        (ah.val : Int) * 256 + al.val + st.extended_addr + len.val :=
      toU32_small _ (by omega) (by omega)
    split_ifs at he with hchk
    obtain ⟨s1, -, hs⟩ := dataLoop_hex ((ah.val : Int) * 256 + al.val) len.val ck tail data 257
      { st with byte_count := wrapInt (st.byte_count + len.val) }
      ((len.val : Int) % 256 + ((ah.val : Int) * 256 + al.val) / 256 % 256 +
        ((ah.val : Int) * 256 + al.val) % 256 + 0 % 256) 0
      (by omega) (by simp [hlen]) (by omega) (le_refl _)
      (by
        intro j hj
        simp only [zero_add]
        have hj2 : (toU32 ((ah.val : Int) * 256 + al.val + st.extended_addr + j) : Int) =
            (ah.val : Int) * 256 + al.val + st.extended_addr + j :=
          toU32_small _ (by omega) (by omega)
        omega)
    rw [hs] at he
    simp at he

/-- A wrong checksum byte on a well-formed record. A length-2 record of type
02 or 04 that passes the address test makes `parse_hex_line` return 1 with
the whole state unchanged, and the load goes on with the next line. A data
record (type 00) is never accepted: the call returns 0, or stops at an
out-of-bounds store when its target index wraps; when
`addr + extended_addr + len` is below `2^32` it returns 0 and
`read_intel_hex` fails with -2. -/
theorem checksum_failure_asymmetry (cfg : Config) (st : ParserState)
    (len ah al code : HexByte) (data : List HexByte) (ck : HexByte)
    (tail : List Char) (more : List (List Char))
    (hlen : data.length = len.val)
    (hbad : ((len.val : Int) + ah.val + al.val + code.val + sumVals data + ck.val) % 256
      ≠ 0) :
    ((code.val = 2 ∨ code.val = 4) → len.val = 2 →
      toU32 ((ah.val : Int) * 256 + al.val + st.extended_addr + 2) < MAX_MEMORY_SIZE →
      parse_hex_line cfg st (hexLine len ah al code data ck tail) = Outcome.ret 1 st ∧
      readLoop cfg st (hexLine len ah al code data ck tail :: more) =
        (if st.end_record_seen ≠ 0 then Outcome.ret st.byte_count st
         else readLoop cfg st more)) ∧
    (code.val = 0 →
      ((∃ s1, parse_hex_line cfg st (hexLine len ah al code data ck tail) =
          Outcome.ret 0 s1) ∨
        (∃ idx, MAX_MEMORY_SIZE ≤ idx ∧
          parse_hex_line cfg st (hexLine len ah al code data ck tail) =
            Outcome.undef (Fault.oob idx))) ∧
      (ah.val * 256 + al.val + st.extended_addr + len.val < 4294967296 →
        ∃ s1, parse_hex_line cfg st (hexLine len ah al code data ck tail) =
            Outcome.ret 0 s1 ∧
          readLoop cfg st (hexLine len ah al code data ck tail :: more) =
            Outcome.ret (-2) s1)) := by
  have hne : hexLine len ah al code data ck tail ≠ [] := by simp [hexLine]
  constructor
  · intro hcode hl2 hchk
    have hp : parse_hex_line cfg st (hexLine len ah al code data ck tail) =
        Outcome.ret 1 st := by
      obtain ⟨vh, vl, rfl⟩ : ∃ vh vl, data = [vh, vl] := by
        match data, hlen with
        | [a, b], _ => exact ⟨a, b, rfl⟩
        | [], h => simp [hl2] at h
        | [_], h => simp [hl2] at h
        | _ :: _ :: _ :: _, h => simp [hl2] at h
      obtain ⟨e1, e2⟩ := addr_hi_lo ah.val al.val ah.val_lt al.val_lt
      have hp := parse_hexLine cfg st len ah al code [vh, vl] ck tail hlen
      simp only [dataChars, List.nil_append, List.cons_append, hl2, Nat.cast_ofNat] at hp
      simp only [sumVals, add_zero, hl2, Nat.cast_ofNat] at hbad
      rcases hcode with hc | hc
      · rw [hc] at hbad hp
        simp only [Nat.cast_ofNat] at hbad hp
        rw [hp, parseBody_two cfg st _ _ hchk, extRecord_hex_bad st vh vl ck tail _ _
          (by rw [Bool.eq_false_iff, ne_eq, cksumOk_iff, e1, e2]; intro h; apply hbad; omega)]
      · rw [hc] at hbad hp
        simp only [Nat.cast_ofNat] at hbad hp
        rw [hp, parseBody_four cfg st _ _ hchk, extRecord_hex_bad st vh vl ck tail _ _
          (by rw [Bool.eq_false_iff, ne_eq, cksumOk_iff, e1, e2]; intro h; apply hbad; omega)]
    refine ⟨hp, ?_⟩
    rw [readLoop]
    unfold lineOutcome
    rw [if_pos hne, hp]
    simp
  · intro hcode
    have hbad2 : ((len.val : Int) + ah.val + al.val + sumVals data + ck.val) % 256 ≠ 0 := by
      rw [hcode] at hbad
      simpa using hbad
    refine ⟨parse_data_line_total cfg st len ah al code data ck tail hcode hlen hbad2, ?_⟩
    intro hnw
    obtain ⟨s1, hs⟩ := parse_data_line_nowrap cfg st len ah al code data ck tail hcode hlen
      hnw hbad2
    refine ⟨s1, hs, ?_⟩
    rw [readLoop]
    unfold lineOutcome
    rw [if_pos hne, hs]
    simp

/-- C15 (code at the failing input): the type-04 record `:02000004FFFF00`
has a wrong checksum byte (`FC` is right) and is accepted with
`extended_addr` unchanged. The data record `:01FFFF00AA56` has a wrong
checksum byte (`57` is right): in the reset state it is rejected and the load
returns -2, but after the accepted record `:02000004FFFFFC`, which sets
`extended_addr` to `0xFFFF0000`, the address test wraps to 0 and the call
stores the data byte at index `0xFFFFFFFF`, outside the arrays, before it
reads the checksum byte: it does not return 0. -/
theorem C15_wrong_checksum_data_record_stores_out_of_bounds :
    ((parse_hex_line cfg0 resetState ":02000004FFFF00".toList).retval = some 1 ∧
      (parse_hex_line cfg0 resetState ":02000004FFFF00".toList).state.map
        (fun s => s.extended_addr) = some 0) ∧
    cksumOk (1 + 0xFF + 0xFF + 0 + 0xAA) 0x56 = false ∧
    (read_intel_hex cfg0 resetState (some [":01FFFF00AA56".toList])).retval = some (-2) ∧
    (read_intel_hex cfg0 resetState (some [":02000004FFFFFC".toList])).state.map
        (fun s => s.extended_addr) = some 0xFFFF0000 ∧
    (read_intel_hex cfg0 resetState
        (some [":02000004FFFFFC".toList, ":01FFFF00AA56".toList])).retval = none ∧
    (read_intel_hex cfg0 resetState
        (some [":02000004FFFFFC".toList, ":01FFFF00AA56".toList])).fault =
      some (Fault.oob 0xFFFFFFFF) := by
  decide

/-! ## Short lines -/

theorem char_eq_of_toNat {c : Char} {n : Nat} (h : c.toNat = n) : c = Char.ofNat n := by
  rw [← h, Char.ofNat_toNat]

/-- C16 (counterexample): the line `:00000001F` with its line terminator has
10 characters after stripping the trailing white space, and `:00000001` with
two line terminators has 9; both are accepted as end-of-file records and the
load succeeds. The empty buffer does not begin with `:` and is rejected by
`parse_hex_line`, but `read_intel_hex` does not pass it to the parser and the
load goes on. -/
theorem C16_short_line_with_terminator_accepted :
    ((":00000001F".toList ++ [Char.ofNat 10]).length = 11 ∧
      (parse_hex_line cfg0 resetState (":00000001F".toList ++ [Char.ofNat 10])).retval
        = some 1 ∧
      (read_intel_hex cfg0 resetState
        (some [":00000001F".toList ++ [Char.ofNat 10]])).retval = some 0) ∧
    ((parse_hex_line cfg0 resetState
        (":00000001".toList ++ [Char.ofNat 13, Char.ofNat 10])).retval = some 1) ∧
    ((parse_hex_line cfg0 resetState []).retval = some 0 ∧
      (read_intel_hex cfg0 resetState (some [[], ":00000001FF".toList])).retval = some 0) := by
  decide

/-- C16 (amended): every line that does not begin with `:` or whose length,
trailing white space and line terminator included, is less than 11
characters is rejected by `parse_hex_line` (returns 0, state unchanged), and
when the buffer is not empty the load fails with -2. -/
theorem C16_bad_start_or_short_line_rejected (cfg : Config) (st : ParserState)
    (line : List Char) (more : List (List Char))
    (h : line.head? ≠ some (Char.ofNat 58) ∨ line.length < 11) :
    parse_hex_line cfg st line = Outcome.ret 0 st ∧
    (line ≠ [] → readLoop cfg st (line :: more) = Outcome.ret (-2) st) := by
  have hp : parse_hex_line cfg st line = Outcome.ret 0 st := by
    unfold parse_hex_line
    cases line with
    | nil => rfl
    | cons c0 p1 =>
      simp only
      by_cases hc : c0.toNat ≠ 58
      · rw [if_pos hc]
      · rw [if_neg hc]
        have hc2 : c0 = Char.ofNat 58 := char_eq_of_toNat (by simpa using hc)
        rcases h with h | h
        · exact absurd (by simp [hc2]) h
        · rw [if_pos h]
  refine ⟨hp, fun hne => ?_⟩
  unfold readLoop lineOutcome
  rw [if_pos hne, hp]
  simp

/-- Witness of C16 (amended): a blank line, which is the line terminator
alone, fails the load. -/
theorem C16_bad_start_or_short_line_rejected_witness :
    parse_hex_line cfg0 resetState [Char.ofNat 10] = Outcome.ret 0 resetState ∧
    ([Char.ofNat 10] ≠ [] →
      readLoop cfg0 resetState ([Char.ofNat 10] :: [":00000001FF".toList]) =
        Outcome.ret (-2) resetState) :=
  C16_bad_start_or_short_line_rejected cfg0 resetState [Char.ofNat 10]
    [":00000001FF".toList] (Or.inl (by decide))

/-! ## Runs of `main` -/

theorem main_boot_only_run (tw : Nat → Bool) (stack : List Nat)
    (h : 130 ≤ stack.length) :
    main cfg0 optsBootOnly none none 0 tw stack =
      { events := [Event.opened,
          Event.reboot (255 :: 255 :: 255 :: List.replicate 127 0) 130 500, Event.closed]
        exit_status := some 0 } := by
  have hb := boot_eq stack 127 (by omega)
  have e : (((127 + 3 : Nat)) : Int) = 130 := by norm_num
  rw [e] at hb
  have hw : initialWriteSize { code_size := 32256, block_size := 128 } = 130 := by decide
  simp only [main, optsBootOnly, afterOpen, finishRun, cfg0, hw, hb]
  simp

/-- C17 (code at the failing inputs): with the device opened, a run whose
first block write fails, a run whose second load of the HEX file fails after
waiting, and a run with an unknown code/block size all end in `die` with exit
status 1 and no call of `teensy_close`; the boot-only run closes the handle
before it returns 0. -/
theorem C17_die_exits_without_close :
    ((main cfg0 optsDefault (some [":00000001FF".toList]) none 0 (fun _ => false)
        (List.replicate 2048 0)).exit_status = some 1 ∧
      (main cfg0 optsDefault (some [":00000001FF".toList]) none 0 (fun _ => false)
        (List.replicate 2048 0)).events.head? = some Event.opened ∧
      Event.closed ∉ (main cfg0 optsDefault (some [":00000001FF".toList]) none 0
        (fun _ => false) (List.replicate 2048 0)).events) ∧
    (main cfg0 optsWait (some [":00000001FF".toList]) none 1 (fun _ => true)
        (List.replicate 2048 0) =
      { events := [Event.open_failed, Event.opened], exit_status := some 1 }) ∧
    (main { code_size := 1000, block_size := 300 } optsDefault
        (some [":00000001FF".toList]) none 0 (fun _ => true) (List.replicate 2048 0) =
      { events := [Event.opened], exit_status := some 1 }) ∧
    ((main cfg0 optsBootOnly none none 0 (fun _ => true)
        (List.replicate 2048 0)).events.getLast? = some Event.closed ∧
      (main cfg0 optsBootOnly none none 0 (fun _ => true)
        (List.replicate 2048 0)).exit_status = some 0) := by
  refine ⟨by decide, by decide, by decide, ?_⟩
  rw [main_boot_only_run _ _ (by rw [List.length_replicate]; decide)]
  exact ⟨rfl, rfl⟩

theorem pairwise_of_forall_left {α : Type} (P : α → Prop) (l : List α)
    (h : ∀ a ∈ l, P a) : l.Pairwise (fun a _ => P a) := by
  induction l with
  | nil => exact List.Pairwise.nil
  | cons x xs ih =>
    exact List.Pairwise.cons (fun _ _ => h x (List.mem_cons_self _ _))
      (ih (fun a ha => h a (List.mem_cons_of_mem _ ha)))

theorem programLoop_writes_ok (cfg : Config) (st : ParserState) (tw : Nat → Bool) :
    ∀ (fuel : Nat) (addr : Int) (first : Bool) (ws : Int) (k : Nat),
      (programLoop cfg st tw fuel addr first ws k).1.Pairwise (fun w _ => w.ok = true) ∧
      ((programLoop cfg st tw fuel addr first ws k).2 ≠ Stop.die_write_error →
        ∀ w ∈ (programLoop cfg st tw fuel addr first ws k).1, w.ok = true) := by
  intro fuel
  induction fuel with
  | zero => intro addr first ws k; simp [programLoop]
  | succ f ih =>
    intro addr first ws k
    unfold programLoop
    by_cases h1 : ¬ addr < cfg.code_size
    · rw [if_pos h1]; simp
    rw [if_neg h1]
    by_cases h2 : 2147483647 < addr + cfg.block_size ∨ addr + cfg.block_size < -2147483648 ∨
        (first = false ∧ addr + cfg.block_size - 1 < -2147483648)
    · rw [if_pos h2]; simp
    rw [if_neg h2]
    by_cases h3 : first = false ∧
        ihex_bytes_within_range st addr (addr + cfg.block_size - 1) = 0
    · rw [if_pos h3]; exact ih _ _ _ _
    rw [if_neg h3]
    by_cases h4 : first = false ∧ memory_is_blank st addr cfg.block_size ≠ 0
    · rw [if_pos h4]; exact ih _ _ _ _
    rw [if_neg h4]
    cases hv : headerVariant cfg.block_size cfg.code_size with
    | none => simp
    | some v =>
      cases hd : ihex_get_data st addr cfg.block_size with
      | none => simp
      | some data =>
        simp only
        by_cases hok : tw k = false
        · rw [if_pos hok]; simp
        · rw [if_neg hok]
          have hok2 : tw k = true := by simpa using hok
          obtain ⟨i1, i2⟩ := ih (addr + cfg.block_size) false (writeSize v cfg.block_size) (k + 1)
          refine ⟨List.Pairwise.cons (fun _ _ => hok2) i1, ?_⟩
          intro hne w hw
          simp only [List.mem_cons] at hw
          rcases hw with rfl | hw
          · exact hok2
          · exact i2 hne w hw

theorem finishRun_events (events : List Event) (b : Bool) (buf : List Nat) (ws : Int)
    (h : ∀ a ∈ events, a.isFailedBlock = false) :
    ∀ a ∈ (finishRun events b buf ws).events, a.isFailedBlock = false := by
  unfold finishRun
  split_ifs
  · split
    · exact h
    · intro a ha
      simp only [List.mem_append, List.mem_cons, List.mem_singleton, List.not_mem_nil,
        or_false] at ha
      rcases ha with ha | rfl | rfl
      · exact h a ha
      · rfl
      · rfl
  · intro a ha
    simp only [List.mem_append, List.mem_singleton] at ha
    rcases ha with ha | rfl
    · exact h a ha
    · rfl

theorem afterOpen_failed_block_last (cfg : Config) (opts : Options) (st : ParserState)
    (file2 : Option (List (List Char))) (waited : Bool) (tw : Nat → Bool)
    (stack : List Nat) (events : List Event)
    (h : ∀ a ∈ events, a.isFailedBlock = false) :
    (afterOpen cfg opts st file2 waited tw stack events).events.Pairwise
      (fun e _ => e.isFailedBlock = false) := by
  unfold afterOpen
  by_cases hbo : opts.boot_only = true
  · rw [if_pos hbo]
    exact pairwise_of_forall_left _ _ (finishRun_events _ _ _ _ h)
  rw [if_neg hbo]
  generalize (if waited = true then read_intel_hex cfg st file2 else Outcome.ret 0 st) = o
  cases o with
  | undef f => exact pairwise_of_forall_left _ _ h
  | ret num st2 =>
    simp only
    by_cases hnum : num < 0
    · rw [if_pos hnum]
      exact pairwise_of_forall_left _ _ h
    rw [if_neg hnum]
    obtain ⟨p1, p2⟩ := programLoop_writes_ok cfg st2 tw (cfg.code_size.toNat + 1) 0 true
      (initialWriteSize cfg) 0
    have hpw : (events ++ (program cfg st2 tw).1.map blockEvent).Pairwise
        (fun e _ => e.isFailedBlock = false) := by
      rw [List.pairwise_append]
      refine ⟨pairwise_of_forall_left _ _ h, ?_, fun a ha _ _ => h a ha⟩
      rw [List.pairwise_map]
      refine List.Pairwise.imp ?_ p1
      intro w _ hw
      simp [blockEvent, Event.isFailedBlock, hw]
    have hall : (program cfg st2 tw).2 ≠ Stop.die_write_error →
        ∀ a ∈ events ++ (program cfg st2 tw).1.map blockEvent,
          a.isFailedBlock = false := by
      intro hne a ha
      simp only [List.mem_append, List.mem_map] at ha
      rcases ha with ha | ⟨w, hw, rfl⟩
      · exact h a ha
      · have := p2 hne w hw
        simp [blockEvent, Event.isFailedBlock, this]
    cases hstop : (program cfg st2 tw).2 with
    | finished ws =>
      simp only
      exact pairwise_of_forall_left _ _
        (finishRun_events _ _ _ _ (hall (by rw [hstop]; simp)))
    | die_unknown_size => exact hpw
    | die_write_error => exact hpw
    | overflow => exact hpw
    | fuel => exact hpw

/-- C18: in every run of `main`, whatever the image, the configuration and
the answers of the transport, a block write for which `teensy_write` returned
0 is the last event of the run: no later block and no reboot buffer is
written after it (and the handle is not closed). -/
theorem C18_no_write_after_failed_write (cfg : Config) (opts : Options)
    (file1 file2 : Option (List (List Char))) (open_fails : Nat) (tw : Nat → Bool)
    (stack : List Nat) :
    (main cfg opts file1 file2 open_fails tw stack).events.Pairwise
      (fun e1 e2 => e1.isFailedBlock = true → e2.isWrite = false) ∧
    (main cfg opts file1 file2 open_fails tw stack).events.Pairwise
      (fun e1 _ => e1.isFailedBlock = false) := by
  have key : (main cfg opts file1 file2 open_fails tw stack).events.Pairwise
      (fun e1 _ => e1.isFailedBlock = false) := by
    unfold main
    by_cases h1 : opts.filename_given = false ∧ opts.boot_only = false
    · rw [if_pos h1]; exact List.Pairwise.nil
    rw [if_neg h1]
    by_cases h2 : cfg.code_size = 0
    · rw [if_pos h2]; exact List.Pairwise.nil
    rw [if_neg h2]
    generalize (if opts.boot_only = true then Outcome.ret 0 startState
      else read_intel_hex cfg startState file1) = o
    cases o with
    | undef f => exact List.Pairwise.nil
    | ret num st =>
      simp only
      by_cases h3 : num < 0
      · rw [if_pos h3]; exact List.Pairwise.nil
      rw [if_neg h3]
      by_cases h4 : 0 < open_fails ∧ opts.wait_for_device_to_appear = false
      · rw [if_pos h4]
        exact pairwise_of_forall_left _ _ (by simp [Event.isFailedBlock])
      rw [if_neg h4]
      apply afterOpen_failed_block_last
      intro a ha
      simp only [List.mem_append, List.mem_replicate, List.mem_singleton] at ha
      rcases ha with ⟨-, rfl⟩ | rfl <;> rfl
  refine ⟨List.Pairwise.imp ?_ key, key⟩
  intro a b ha hb
  rw [ha] at hb
  exact absurd hb (by decide)

/-! ## The two skip tests of the programming loop -/

theorem programLoop_skip (cfg : Config) (st : ParserState) (tw : Nat → Bool) (fuel : Nat)
    (addr : Int) (first : Bool) (ws : Int) (k : Nat)
    (h1 : addr < cfg.code_size)
    (h2 : ¬ (2147483647 < addr + cfg.block_size ∨ addr + cfg.block_size < -2147483648 ∨
      (first = false ∧ addr + cfg.block_size - 1 < -2147483648)))
    (hs : skipsBlock cfg st addr first) :
    programLoop cfg st tw (fuel + 1) addr first ws k =
      programLoop cfg st tw fuel (addr + cfg.block_size) first ws k := by
  rw [programLoop, if_neg (by simpa using h1), if_neg h2]
  rcases hs with hs | hs
  · rw [if_pos hs]
  · by_cases hw : first = false ∧
        ihex_bytes_within_range st addr (addr + cfg.block_size - 1) = 0
    · rw [if_pos hw]
    · rw [if_neg hw, if_pos hs]

theorem programLoop_no_skip (cfg : Config) (st : ParserState) (tw : Nat → Bool) (fuel : Nat)
    (addr : Int) (first : Bool) (ws : Int) (k : Nat)
    (h1 : addr < cfg.code_size)
    (h2 : ¬ (2147483647 < addr + cfg.block_size ∨ addr + cfg.block_size < -2147483648 ∨
      (first = false ∧ addr + cfg.block_size - 1 < -2147483648)))
    (hs : ¬ skipsBlock cfg st addr first) (v : HeaderVariant) (data : List Nat)
    (hv : headerVariant cfg.block_size cfg.code_size = some v)
    (hd : ihex_get_data st addr cfg.block_size = some data) :
    (programLoop cfg st tw (fuel + 1) addr first ws k).1.head? =
      some { addr := addr, buf := headerBytes v addr ++ data,
             len := writeSize v cfg.block_size,
             timeout_ms := if first then 5000 else 500, ok := tw k } := by
  unfold skipsBlock at hs
  rw [not_or] at hs
  rw [programLoop, if_neg (by simpa using h1), if_neg h2, if_neg hs.1, if_neg hs.2]
  simp only [hv, hd]
  split_ifs <;> rfl

/-- C19: for `a >= 0` and `block_size >= 1` with `a + block_size - 1` below
`MAX_MEMORY_SIZE`, when `ihex_bytes_within_range(a, a + block_size - 1)`
returns 0 then `memory_is_blank(a, block_size)` returns 1; so a block that is
not the first is skipped by the programming loop exactly when
`memory_is_blank` is true for it. -/
theorem C19_unmasked_block_is_blank (cfg : Config) (st : ParserState) (a : Int)
    (ha : 0 ≤ a) (hbs : 1 ≤ cfg.block_size)
    (hin : a + cfg.block_size - 1 < MAX_MEMORY_SIZE) :
    (ihex_bytes_within_range st a (a + cfg.block_size - 1) = 0 →
      memory_is_blank st a cfg.block_size = 1) ∧
    (skipsBlock cfg st a false ↔ memory_is_blank st a cfg.block_size ≠ 0) := by
  have key : ihex_bytes_within_range st a (a + cfg.block_size - 1) = 0 →
      memory_is_blank st a cfg.block_size = 1 := by
    intro hw
    unfold ihex_bytes_within_range at hw
    rw [if_neg (by omega)] at hw
    obtain ⟨r1, -⟩ := rangeLoop_spec st.firmware_mask
      (a + cfg.block_size - 1 + 1 - a).toNat a.toNat
    have hnone : ¬ ∃ j, a.toNat ≤ j ∧ j < a.toNat + (a + cfg.block_size - 1 + 1 - a).toNat ∧
        st.firmware_mask j ≠ 0 := by
      intro hex
      have := r1.2 hex
      rw [hw] at this
      exact absurd this (by decide)
    unfold memory_is_blank
    rw [if_neg (by omega)]
    obtain ⟨b1, -⟩ := blankLoop_spec st (MAX_MEMORY_SIZE - a.toNat) a.toNat cfg.block_size
      (by omega) (by omega)
    rw [b1]
    intro j j1 j2 j3 j4
    exact absurd ⟨j, j1, by omega, j4⟩ hnone
  refine ⟨key, ?_⟩
  unfold skipsBlock
  constructor
  · rintro (⟨-, h⟩ | ⟨-, h⟩)
    · rw [key h]; decide
    · exact h
  · intro h
    exact Or.inr ⟨rfl, h⟩

/-- Witness of C19: the block `[128, 256)` of the reset image for an
ATmega32U4. -/
theorem C19_unmasked_block_is_blank_witness :
    (ihex_bytes_within_range resetState 128 (128 + cfg0.block_size - 1) = 0 →
      memory_is_blank resetState 128 cfg0.block_size = 1) ∧
    (skipsBlock cfg0 resetState 128 false ↔
      memory_is_blank resetState 128 cfg0.block_size ≠ 0) :=
  C19_unmasked_block_is_blank cfg0 resetState 128 (by decide) (by decide) (by decide)

/-! ## The MCU table -/

theorem header_two_bytes_injective (a1 a2 : Int) (h1 : 0 ≤ a1) (h1b : a1 < 65536)
    (h2 : 0 ≤ a2) (h2b : a2 < 65536)
    (e1 : (a1 % 256).toNat = (a2 % 256).toNat)
    (e2 : (a1 / 256 % 256).toNat = (a2 / 256 % 256).toNat) : a1 = a2 := by
  omega

theorem header_three_bytes_injective (a1 a2 : Int) (h1 : 0 ≤ a1) (h1b : a1 < 16777216)
    (h2 : 0 ≤ a2) (h2b : a2 < 16777216)
    (e1 : (a1 % 256).toNat = (a2 % 256).toNat)
    (e2 : (a1 / 256 % 256).toNat = (a2 / 256 % 256).toNat)
    (e3 : (a1 / 65536 % 256).toNat = (a2 / 65536 % 256).toNat) : a1 = a2 := by
  omega

theorem header_page_bytes_injective (k1 k2 : Int) (h1 : 0 ≤ k1) (h1b : k1 * 256 < 16777216)
    (h2 : 0 ≤ k2) (h2b : k2 * 256 < 16777216)
    (e2 : (k1 * 256 / 256 % 256).toNat = (k2 * 256 / 256 % 256).toNat)
    (e3 : (k1 * 256 / 65536 % 256).toNat = (k2 * 256 / 65536 % 256).toNat) :
    k1 * 256 = k2 * 256 := by
  omega

theorem header_injective (bs cs : Int) (v : HeaderVariant)
    (hv : headerVariant bs cs = some v) (hcs : cs ≤ 16777216) (hbs : 0 < bs)
    (k1 k2 : Int) (hk1 : 0 ≤ k1) (hk2 : 0 ≤ k2) (h1 : k1 * bs < cs) (h2 : k2 * bs < cs)
    (heq : headerBytes v (k1 * bs) = headerBytes v (k2 * bs)) : k1 * bs = k2 * bs := by
  have n1 : 0 ≤ k1 * bs := Int.mul_nonneg hk1 (le_of_lt hbs)
  have n2 : 0 ≤ k2 * bs := Int.mul_nonneg hk2 (le_of_lt hbs)
  unfold headerVariant at hv
  split_ifs at hv with hA hB hC
  · simp only [Option.some.injEq] at hv
    subst hv
    simp only [headerBytes, List.cons.injEq, and_true] at heq
    exact header_two_bytes_injective _ _ n1 (by omega) n2 (by omega) heq.1 heq.2
  · simp only [Option.some.injEq] at hv
    subst hv
    subst hB
    simp only [headerBytes, List.cons.injEq, and_true] at heq
    exact header_page_bytes_injective k1 k2 hk1 (by omega) hk2 (by omega) heq.1 heq.2
  · simp only [Option.some.injEq] at hv
    subst hv
    simp only [headerBytes, List.cons_append, List.nil_append, List.cons.injEq, and_true]
      at heq
    exact header_three_bytes_injective _ _ n1 (by omega) n2 (by omega) heq.1 heq.2.1 heq.2.2

/-- C20: every entry of the MCU table selects one of the three header
variants, and for two different block addresses of that device (multiples of
`block_size` below `code_size`) the header bytes differ. -/
theorem C20_table_headers_injective :
    ∀ e ∈ MCUs, ∃ v, headerVariant e.2.2 e.2.1 = some v ∧
      ∀ k1 k2 : Nat, (k1 : Int) * e.2.2 < e.2.1 → (k2 : Int) * e.2.2 < e.2.1 →
        (k1 : Int) * e.2.2 ≠ (k2 : Int) * e.2.2 →
        headerBytes v ((k1 : Int) * e.2.2) ≠ headerBytes v ((k2 : Int) * e.2.2) := by
  intro e he
  have hall : ∀ x ∈ MCUs, (headerVariant x.2.2 x.2.1).isSome = true ∧
      x.2.1 ≤ 16777216 ∧ 0 < x.2.2 := by decide
  obtain ⟨hsome, hcs, hbs⟩ := hall e he
  obtain ⟨v, hv⟩ := Option.isSome_iff_exists.mp hsome
  refine ⟨v, hv, ?_⟩
  intro k1 k2 h1 h2 hne heq
  exact hne (header_injective e.2.2 e.2.1 v hv hcs hbs k1 k2 (Int.ofNat_nonneg _)
    (Int.ofNat_nonneg _) h1 h2 heq)

/-- Witness of C20: the entry `TEENSY40` and its blocks 1 and 257, whose
addresses `0x00400` and `0x40400` agree in the two low bytes. -/
theorem C20_table_headers_injective_witness :
    ∃ v, headerVariant (1024 : Int) 2031616 = some v ∧
      headerBytes v ((1 : Nat) * 1024) ≠ headerBytes v ((257 : Nat) * 1024) := by
  obtain ⟨v, hv, h⟩ := C20_table_headers_injective ("TEENSY40", 2031616, 1024) (by decide)
  exact ⟨v, hv, h 1 257 (by decide) (by decide) (by decide)⟩

end TeensyFlasher
